import Mathlib

/-!
Verification development for the protocol translation engine of the
vandamme-proxy repository: the non-stream request/response converters, the
Anthropic→OpenAI SSE stream translator, and (modelled from the spec, since
its module ships only with its tests here) the OpenAI→Claude streaming
state machine.

Python dictionaries, lists and scalars produced by `json.loads` are embedded
as the inductive type `Json` below.  Python truthiness, `dict.get`, `x or y`
and `json.dumps` are embedded as `Json.truthy`, `Json.get`/`Json.getD`,
`pyOr` and `pyDumps`.  Calls of `.get` on values that may not be
dictionaries (which raise `AttributeError` in Python) are embedded with the
fallible `pyGet` returning `Except Unit Json`.
-/

/-- A JSON value as produced by Python `json.loads`: `null`, booleans,
integers, strings, arrays, objects.  (Floats do not occur in the payloads
the converters inspect.) -/
inductive Json where
  | null : Json
  | bool (b : Bool) : Json
  | int (n : Int) : Json
  | str (s : String) : Json
  | arr (xs : List Json) : Json
  | obj (kvs : List (String × Json)) : Json

/-- Python `x is None`. -/
def Json.isNull : Json → Bool
  | .null => true
  | _ => false

/-- Python `x == "lit"` for a string literal `lit`. -/
def Json.eqStr (j : Json) (s : String) : Bool :=
  match j with
  | .str t => t == s
  | _ => false

/-- Python `dict.get(k, d)`: the stored value when the key is present (even
if that value is `None`), else the default; non-dict receivers give the
default (call sites that can actually raise use `pyGet` instead). -/
def Json.getD (j : Json) (k : String) (d : Json) : Json :=
  match j with
  | .obj kvs =>
    match kvs.find? (fun kv => kv.1 == k) with
    | some kv => kv.2
    | none => d
  | _ => d

/-- Python `dict.get(k)` (default `None`). -/
def Json.get (j : Json) (k : String) : Json :=
  j.getD k Json.null

/-- Python `.get(k)` on a value that may not be a dict: raises
`AttributeError` (here: `Except.error ()`) when the receiver is not a
dictionary. -/
def pyGet (j : Json) (k : String) : Except Unit Json :=
  match j with
  | .obj _ => .ok (j.get k)
  | _ => .error ()

/-- Python truthiness of a JSON value. -/
def Json.truthy : Json → Bool
  | .null => false
  | .bool b => b
  | .int n => n != 0
  | .str s => s != ""
  | .arr xs => !xs.isEmpty
  | .obj kvs => !kvs.isEmpty

/-- Python `a or b`. -/
def pyOr (a b : Json) : Json :=
  if a.truthy then a else b

/-- Whether a JSON value is a dictionary (`isinstance(x, dict)`). -/
def Json.isObj : Json → Bool
  | .obj _ => true
  | _ => false

/-- Iterating a JSON value as a list (`for x in v`); the embedded call
sites only reach this after the source has established a list. -/
def Json.asList : Json → List Json
  | .arr xs => xs
  | _ => []

/-- Four-digit lowercase hex rendering used by `json.dumps` for control
characters. -/
def hex4 (n : Nat) : String :=
  let digit (d : Nat) : Char := if d < 10 then Char.ofNat (48 + d) else Char.ofNat (87 + d)
  String.mk [digit (n / 4096 % 16), digit (n / 256 % 16), digit (n / 16 % 16), digit (n % 16)]

/-- Escaping of one character inside a JSON string literal, as done by
`json.dumps(..., ensure_ascii=False)`. -/
def jsonEscapeChar (c : Char) : String :=
  if c = Char.ofNat 34 then "\\\""
  else if c = Char.ofNat 92 then "\\\\"
  else if c = Char.ofNat 10 then "\\n"
  else if c = Char.ofNat 9 then "\\t"
  else if c = Char.ofNat 13 then "\\r"
  else if c = Char.ofNat 8 then "\\b"
  else if c = Char.ofNat 12 then "\\f"
  else if c.toNat < 32 then "\\u" ++ hex4 c.toNat
  else String.singleton c

/-- JSON string literal rendering of `json.dumps`. -/
def jsonQuote (s : String) : String :=
  "\"" ++ String.join (s.data.map jsonEscapeChar) ++ "\""

mutual
/-- Python `json.dumps(v, ensure_ascii=False)` with the default separators
`", "` and `": "`. -/
def pyDumps : Json → String
  | .null => "null"
  | .bool true => "true"
  | .bool false => "false"
  | .int n => toString n
  | .str s => jsonQuote s
  | .arr xs => "[" ++ pyDumpsList xs ++ "]"
  | .obj kvs => "\x7b" ++ pyDumpsObj kvs ++ "\x7d"

def pyDumpsList : List Json → String
  | [] => ""
  | [x] => pyDumps x
  | x :: xs => pyDumps x ++ ", " ++ pyDumpsList xs

def pyDumpsObj : List (String × Json) → String
  | [] => ""
  | [kv] => jsonQuote kv.1 ++ ": " ++ pyDumps kv.2
  | kv :: kvs => jsonQuote kv.1 ++ ": " ++ pyDumps kv.2 ++ ", " ++ pyDumpsObj kvs
end

/-- Escaping of one character inside a Python single-quoted `repr` string. -/
def pyReprEscapeChar (c : Char) : String :=
  if c = Char.ofNat 39 then "\\" ++ String.singleton (Char.ofNat 39)
  else if c = Char.ofNat 92 then "\\\\"
  else if c = Char.ofNat 10 then "\\n"
  else if c = Char.ofNat 9 then "\\t"
  else if c = Char.ofNat 13 then "\\r"
  else String.singleton c

/-- Python `repr` of a string (single-quoted form). -/
def pyReprStr (s : String) : String :=
  String.singleton (Char.ofNat 39) ++ String.join (s.data.map pyReprEscapeChar)
    ++ String.singleton (Char.ofNat 39)

mutual
/-- Python `repr` of a JSON-shaped value (used inside container `str`). -/
def pyRepr : Json → String
  | .null => "None"
  | .bool true => "True"
  | .bool false => "False"
  | .int n => toString n
  | .str s => pyReprStr s
  | .arr xs => "[" ++ pyReprList xs ++ "]"
  | .obj kvs => "\x7b" ++ pyReprObj kvs ++ "\x7d"

def pyReprList : List Json → String
  | [] => ""
  | [x] => pyRepr x
  | x :: xs => pyRepr x ++ ", " ++ pyReprList xs

def pyReprObj : List (String × Json) → String
  | [] => ""
  | [kv] => pyReprStr kv.1 ++ ": " ++ pyRepr kv.2
  | kv :: kvs => pyReprStr kv.1 ++ ": " ++ pyRepr kv.2 ++ ", " ++ pyReprObj kvs
end

/-- Python `str` of a JSON-shaped value: strings pass through verbatim,
everything else renders as its `repr`. -/
def pyStr : Json → String
  | .str s => s
  | j => pyRepr j

/-!
## Non-stream request converter (OpenAI-style → Anthropic-style)

Embedding of `src/conversion/openai_to_anthropic.py`.  The incoming request
is a dictionary; the fields the function reads are carried in
`OAIMessage`/`OpenAIRequest` (each field holds the raw JSON value, with
`Json.null` standing for an absent key, exactly as `dict.get` does).  The
output dictionary has a fixed set of keys and is carried in
`AnthropicRequest`; an `Option` field stands for a key that may be omitted.
The `raise ValueError` is embedded as `Except.error`.
-/

/-- One entry of `openai_request["messages"]`; fields are the raw JSON
values that `msg.get(...)` returns (`Json.null` when absent). -/
structure OAIMessage where
  role : Json := Json.null
  content : Json := Json.null
  tool_call_id : Json := Json.null

/-- The fields of the OpenAI-style request that
`openai_chat_completions_to_anthropic_messages` reads. -/
structure OpenAIRequest where
  max_tokens : Json := Json.null
  max_completion_tokens : Json := Json.null
  stream : Json := Json.null
  messages : List OAIMessage := []
  tools : Json := Json.null

/-- The Anthropic-style request dictionary built by the converter; `none`
in an `Option` field means the key is not present in the dictionary. -/
structure AnthropicRequest where
  model : String
  max_tokens : Json
  stream : Bool
  system : Option String := none
  messages : List Json := []
  tools : Option (List Json) := none

/-- The strings a `system`-role message appends to `system_parts`: a string
content as itself, a list content flattened to `str(part.get("text", ""))`
for its dict parts of type `text`, anything else nothing. -/
def sysContrib (msg : OAIMessage) : List String :=
  if msg.role.eqStr "system" then
    match msg.content with
    | Json.str s => [s]
    | Json.arr parts =>
      parts.filterMap (fun part =>
        if part.isObj && (part.get "type").eqStr "text" then
          some (pyStr (part.getD "text" (Json.str "")))
        else none)
    | _ => []
  else []

/-- The Anthropic content part built from one `text`-typed part of a
`user`/`assistant` list content. -/
def textPartOut (part : Json) : Option Json :=
  if part.isObj && (part.get "type").eqStr "text" then
    some (Json.obj [("type", Json.str "text"),
                    ("text", Json.str (pyStr (part.getD "text" (Json.str ""))))])
  else none

/-- The `tool_result` content string of a converted `tool`-role message:
string content verbatim, anything else `json.dumps`-encoded. -/
def toolResultContent (content : Json) : Json :=
  match content with
  | Json.str s => Json.str s
  | c => Json.str (pyDumps c)

/-- The messages one input message appends to `messages_out`:
`user`/`assistant` messages with `None` content give an empty content
list, string content one text block, list content its text parts only
(anything else is dropped); `tool` messages become a `user` message with a
single `tool_result` block; `system` and unknown-role messages contribute
nothing here. -/
def msgContrib (msg : OAIMessage) : List Json :=
  if msg.role.eqStr "system" then []
  else if msg.role.eqStr "user" || msg.role.eqStr "assistant" then
    match msg.content with
    | Json.null => [Json.obj [("role", msg.role), ("content", Json.arr [])]]
    | Json.str s =>
      [Json.obj [("role", msg.role),
                 ("content", Json.arr [Json.obj [("type", Json.str "text"),
                                                 ("text", Json.str s)]])]]
    | Json.arr parts =>
      [Json.obj [("role", msg.role), ("content", Json.arr (parts.filterMap textPartOut))]]
    | _ => []
  else if msg.role.eqStr "tool" then
    [Json.obj [("role", Json.str "user"),
               ("content", Json.arr [Json.obj
                 [("type", Json.str "tool_result"),
                  ("tool_use_id", msg.tool_call_id),
                  ("content", toolResultContent msg.content)]])]]
  else []

/-- The Anthropic tool declarations built from `openai_request["tools"]`:
entries that are not dicts or not of type `function` are skipped, as are
those whose function is not a dict or lacks a truthy name. -/
def anthropicToolsOf (tools : Json) : List Json :=
  match tools with
  | Json.arr ts =>
    ts.filterMap (fun tool =>
      if !tool.isObj then none
      else if !(tool.get "type").eqStr "function" then none
      else
        let fn := pyOr (tool.get "function") (Json.obj [])
        if !fn.isObj then none
        else
          let name := fn.get "name"
          if !name.truthy then none
          else some (Json.obj
            [("name", name),
             ("description", pyOr (fn.get "description") (Json.str "")),
             ("input_schema", pyOr (fn.get "parameters")
               (Json.obj [("type", Json.str "object"), ("properties", Json.obj [])]))]))
  | _ => []

/-- Embedding of `openai_chat_completions_to_anthropic_messages`:
converts an OpenAI Chat Completions request into an Anthropic Messages
request, raising (`Except.error`) when the derived `max_tokens` is `None`. -/
def openai_chat_completions_to_anthropic_messages
    (openai_request : OpenAIRequest) (resolved_model : String) :
    Except String AnthropicRequest :=
  let max_tokens := pyOr openai_request.max_tokens openai_request.max_completion_tokens
  if max_tokens.isNull then
    .error "OpenAI request missing max_tokens"
  else
    let system_parts := (openai_request.messages.map sysContrib).flatten
    let messages_out := (openai_request.messages.map msgContrib).flatten
    let anthropic_tools := anthropicToolsOf openai_request.tools
    .ok
      { model := resolved_model
        max_tokens := max_tokens
        stream := openai_request.stream.truthy
        system :=
          if system_parts.isEmpty then none
          else some (String.intercalate "\n\n" (system_parts.filter (fun p => p != "")))
        messages := messages_out
        tools := if anthropic_tools.isEmpty then none else some anthropic_tools }

/-!
## Non-stream response converter (Anthropic-style → OpenAI-style)

Embedding of `src/conversion/anthropic_to_openai.py`.  `int(time.time())`
is passed in as the parameter `created`.  The output dictionary has fixed
keys and is carried in `OpenAIChatCompletion`; `none` in the `tool_calls`
and `usage` fields means the key is omitted from the dictionary.
-/

/-- The `stop_reason` → `finish_reason` mapping of
`anthropic_message_to_openai_chat_completion` (lines 47-52 of
`anthropic_to_openai.py`). -/
def nonstream_finish_reason (stop_reason : Json) : String :=
  if stop_reason.eqStr "tool_use" then "tool_calls"
  else if stop_reason.eqStr "max_tokens" then "length"
  else "stop"

/-- The `tool_calls` entry built from one `tool_use` content block. -/
def toolCallEntry (block : Json) : Json :=
  Json.obj
    [("id", block.get "id"),
     ("type", Json.str "function"),
     ("function", Json.obj
       [("name", block.get "name"),
        ("arguments", Json.str (pyDumps (pyOr (block.get "input") (Json.obj []))))])]

/-- One pass of the content-block loop: accumulates text parts and
tool-call entries in order. -/
def collectBlocks : List Json → List String × List Json
  | [] => ([], [])
  | block :: rest =>
    let (texts, tools) := collectBlocks rest
    if !block.isObj then (texts, tools)
    else if (block.get "type").eqStr "text" then
      (pyStr (block.getD "text" (Json.str "")) :: texts, tools)
    else if (block.get "type").eqStr "tool_use" then
      (texts, toolCallEntry block :: tools)
    else (texts, tools)

/-- The `choices[0].message` dictionary of the converted response. -/
structure OpenAIChatMessage where
  content : Json
  tool_calls : Option (List Json) := none

/-- The OpenAI-style `chat.completion` dictionary built by the converter
(fixed keys; `usage` omitted when `none`). -/
structure OpenAIChatCompletion where
  id : Json
  created : Int
  model : Json
  message : OpenAIChatMessage
  finish_reason : String
  usage : Option (Json × Json) := none

/-- Embedding of `anthropic_message_to_openai_chat_completion`: converts an
Anthropic Messages response into an OpenAI `chat.completion`. -/
def anthropic_message_to_openai_chat_completion (created : Int) (anthropic : Json) :
    OpenAIChatCompletion :=
  let message_id := pyOr (anthropic.get "id") (Json.str "chatcmpl-anthropic")
  let model := pyOr (anthropic.get "model") (Json.str "unknown")
  let blocks := (pyOr (anthropic.getD "content" (Json.arr [])) (Json.arr [])).asList
  let parts := collectBlocks blocks
  let message : OpenAIChatMessage :=
    { content := if parts.1.isEmpty then Json.null else Json.str (String.join parts.1)
      tool_calls := if parts.2.isEmpty then none else some parts.2 }
  let usage := pyOr (anthropic.get "usage") (Json.obj [])
  let prompt_tokens := usage.get "input_tokens"
  let completion_tokens := usage.get "output_tokens"
  { id := message_id
    created := created
    model := model
    message := message
    finish_reason := nonstream_finish_reason (anthropic.get "stop_reason")
    usage :=
      if !prompt_tokens.isNull && !completion_tokens.isNull then
        some (prompt_tokens, completion_tokens)
      else none }

/-!
## Stream translator (Anthropic-style SSE → OpenAI-style SSE)

Embedding of `anthropic_sse_to_openai_chat_completions_sse` in
`src/conversion/anthropic_sse_to_openai.py`.  The async generator is
embedded as a function from the list of upstream lines to the list of
emitted lines, threading the `pending_event` buffer explicitly.
`json.loads` is an external library call and is passed in abstractly as
`parse : String → Option Json` (`none` embeds a parse exception caught by
the `try`/`except`).  The `.get` attribute accesses on parsed payloads can
raise `AttributeError` in Python; they are embedded with `pyGet`, so one
processing step returns `Except Unit _` and a raised exception aborts the
whole translation with nothing further emitted (in particular without the
final sentinel).  `int(time.time())`, `model` and `completion_id` are the
fixed `SseCfg` triple.
-/

/-- The values fixed at stream start: `model`, `completion_id` and
`created = int(time.time())`. -/
structure SseCfg where
  model : String
  completion_id : String
  created : Int

/-- Python `str.strip()` (whitespace at both ends), computed on the
character list so the kernel can evaluate concrete inputs. -/
def pyStrip (s : String) : String :=
  String.mk (((s.data.dropWhile Char.isWhitespace).reverse.dropWhile
    Char.isWhitespace).reverse)

/-- Python `str.startswith(pre)`. -/
def pyStartsWith (s pre : String) : Bool :=
  pre.data.isPrefixOf s.data

/-- Python character slicing `s[n:]`. -/
def pyDrop (s : String) (n : Nat) : String :=
  String.mk (s.data.drop n)

/-- Split a character list at newline characters. -/
def splitNlChars : List Char → List (List Char)
  | [] => [[]]
  | c :: cs =>
    if c = Char.ofNat 10 then [] :: splitNlChars cs
    else
      match splitNlChars cs with
      | [] => [[c]]
      | l :: ls => (c :: l) :: ls

/-- Python `str.splitlines()` for the newline-separated fragments that
occur here. -/
def pySplitLines (s : String) : List String :=
  (splitNlChars s.data).map String.mk

/-- Embedding of `_parse_sse_event`: scan the lines of one raw fragment,
the last `event:` line and the last `data:` line win; the text after the
first colon (`line.split(":", 1)[1]`) of an `event:`/`data:` line is the
line minus its 6/5-character prefix. -/
def parse_sse_event (raw : String) : Option String × Option String :=
  (pySplitLines raw).foldl
    (fun acc line =>
      if pyStartsWith line "event:" then (some (pyStrip (pyDrop line 6)), acc.2)
      else if pyStartsWith line "data:" then (acc.1, some (pyStrip (pyDrop line 5)))
      else acc)
    (none, none)

/-- The OpenAI-style chunk dictionary each emitted line carries. -/
def mkChunk (cfg : SseCfg) (delta : Json) (finish : Json) : Json :=
  Json.obj
    [("id", Json.str cfg.completion_id),
     ("object", Json.str "chat.completion.chunk"),
     ("created", Json.int cfg.created),
     ("model", Json.str cfg.model),
     ("choices", Json.arr [Json.obj
       [("index", Json.int 0),
        ("delta", delta),
        ("finish_reason", finish)]])]

/-- One emitted SSE line: `data: <json>` followed by a blank line. -/
def sseData (chunk : Json) : String :=
  "data: " ++ pyDumps chunk ++ "\n\n"

/-- The `stop_reason` → `finish_reason` mapping of the `message_delta`
branch (lines 135-140 of `anthropic_sse_to_openai.py`). -/
def stream_finish_reason (stop_reason : Json) : String :=
  if stop_reason.eqStr "tool_use" then "tool_calls"
  else if stop_reason.eqStr "max_tokens" then "length"
  else "stop"

/-- Dispatch of one assembled `(event, data)` pair: the emitted lines and
whether the loop breaks.  `Except.error ()` embeds an uncaught
`AttributeError` from a `.get` on a non-dict payload or delta. -/
def dispatchEvent (parse : String → Option Json) (cfg : SseCfg)
    (event : String) (data : String) : Except Unit (List String × Bool) :=
  if event = "content_block_delta" then
    match parse data with
    | none => .ok ([], false)
    | some payload =>
      match pyGet payload "delta" with
      | .error e => .error e
      | .ok deltaRaw =>
        let delta := pyOr deltaRaw (Json.obj [])
        match pyGet delta "type" with
        | .error e => .error e
        | .ok ty =>
          if !ty.eqStr "text_delta" then .ok ([], false)
          else
            match pyGet delta "text" with
            | .error e => .error e
            | .ok text =>
              if !text.truthy then .ok ([], false)
              else .ok ([sseData (mkChunk cfg (Json.obj [("content", text)]) Json.null)], false)
  else if event = "message_delta" then
    match parse data with
    | none => .ok ([], false)
    | some payload =>
      match pyGet payload "delta" with
      | .error e => .error e
      | .ok deltaRaw =>
        match pyGet (pyOr deltaRaw (Json.obj [])) "stop_reason" with
        | .error e => .error e
        | .ok stop_reason =>
          .ok ([sseData (mkChunk cfg (Json.obj []) (Json.str (stream_finish_reason stop_reason)))],
            false)
  else if event = "message_stop" then .ok ([], true)
  else .ok ([], false)

/-- What the loop body decides to do with one raw line before any JSON is
parsed: keep scanning with a (possibly updated) pending event, stop at the
`[DONE]` sentinel, or dispatch an assembled `(event, data)` pair. -/
inductive AssembleResult where
  | skip (newPending : Option String) : AssembleResult
  | done : AssembleResult
  | dispatchTo (event : String) (data : String) : AssembleResult

/-- Embedding of the assembly part of the loop body (lines 60-99): strip
the line, unwrap a `data: ` passthrough prefix, detect `[DONE]`, run
`_parse_sse_event`, and pair a lone data line with the buffered pending
event. -/
def assembleLine (pending : Option String) (raw : String) : AssembleResult :=
  let line := pyStrip raw
  if line = "" then .skip pending
  else
    let line := if pyStartsWith line "data: " then pyDrop line 6 else line
    if line = "[DONE]" then .done
    else
      match parse_sse_event line with
      | (none, none) =>
        if pyStartsWith line "event:" then .skip (some (pyStrip (pyDrop line 6)))
        else .skip pending
      | (some e, none) => .skip (some e)
      | (eOpt, some d) =>
        match (match eOpt with | some e => some e | none => pending) with
        | none => .skip pending
        | some e => .dispatchTo e d

/-- One full loop iteration on one raw line: the new pending buffer, the
emitted lines, and whether the loop breaks.  After a successful assembly
the pending buffer is cleared (line 99) before the payload is parsed. -/
def processLine (parse : String → Option Json) (cfg : SseCfg)
    (pending : Option String) (raw : String) :
    Except Unit (Option String × List String × Bool) :=
  match assembleLine pending raw with
  | .skip p => .ok (p, [], false)
  | .done => .ok (pending, [], true)
  | .dispatchTo e d =>
    (dispatchEvent parse cfg e d).map (fun r => (none, r.1, r.2))

/-- The loop over the upstream lines: emitted lines and whether an
exception escaped (`true` = crashed; everything emitted before the crash
is kept, nothing after). -/
def runLines (parse : String → Option Json) (cfg : SseCfg) :
    Option String → List String → List String × Bool
  | _, [] => ([], false)
  | pending, raw :: rest =>
    match processLine parse cfg pending raw with
    | .error _ => ([], true)
    | .ok (p, evs, stop) =>
      if stop then (evs, false)
      else
        let r := runLines parse cfg p rest
        (evs ++ r.1, r.2)

/-- Embedding of `anthropic_sse_to_openai_chat_completions_sse`: run the
loop from an empty pending buffer and, unless an exception escaped, emit
the `data: [DONE]` sentinel as the final line. -/
def anthropic_sse_to_openai_chat_completions_sse (parse : String → Option Json)
    (cfg : SseCfg) (anthropic_sse_lines : List String) : List String × Bool :=
  let r := runLines parse cfg none anthropic_sse_lines
  if r.2 then r else (r.1 ++ ["data: [DONE]\n\n"], false)

/-!
## Stream translator (OpenAI-style SSE chunks → Anthropic-style SSE events)

Modelled from the spec: the module
`src.conversion.openai_stream_to_claude_state_machine` (with
`src.conversion.tool_call_delta`) is not part of the sources here — only
its unit tests are — so `OpenAIToClaudeStreamState`, `ToolCallIndexState`
and `ingest_openai_chunk` below are modelled from the specification's
§3 `StreamState` data model and §4.5 `ingest` description.  JSON parsing
of the argument buffer (`json.loads`) is passed in abstractly as
`parse : String → Option Json`.
-/

/-- Modelled from the spec: the per-upstream-index tracking record
`ToolCallIndexState` of §3 (`tool_id`, `tool_name`, `args_buffer`,
`started`, `json_sent`, `output_index`). -/
structure ToolCallIndexState where
  tool_id : Option String := none
  tool_name : Option String := none
  args_buffer : String := ""
  started : Bool := false
  json_sent : Bool := false
  output_index : Option Nat := none
deriving DecidableEq

/-- Modelled from the spec: the mutable `StreamState` of §3.
`current_tool_calls` is the mapping from the raw upstream tool-call index
(an opaque integer key) to its `ToolCallIndexState`, kept as an
insertion-ordered association list. -/
structure OpenAIToClaudeStreamState where
  message_id : String := "msg"
  text_block_index : Nat := 0
  text_block_started : Bool := false
  tool_block_counter : Nat := 0
  current_tool_calls : List (Int × ToolCallIndexState) := []
  final_stop_reason : String := "end_turn"
deriving DecidableEq

/-- Modelled from the spec: one tool-call fragment of
`chunk.delta.tool_calls` — the upstream index, an optional `id`, an
optional function `name`, and optional `arguments` (a raw JSON value:
`Json.null` embeds an explicit `null`, which is ignored; non-string
payloads are stringified). -/
structure ToolCallDelta where
  index : Int
  id : Option String := none
  name : Option String := none
  arguments : Option Json := none

/-- Modelled from the spec: one OpenAI-style streaming chunk as `ingest`
reads it — optional text content, tool-call fragments, optional
`finish_reason`. -/
structure OpenAIChunk where
  content : Option String := none
  tool_calls : List ToolCallDelta := []
  finish_reason : Option String := none

/-- Modelled from the spec: the Anthropic-style events `ingest` emits
(§6 event grammar, restricted to the shapes `ingest` produces). -/
inductive ClaudeEvent where
  | content_block_start (index : Nat) (blockType : String)
      (id : Option String) (name : Option String) : ClaudeEvent
  | content_block_delta_text (index : Nat) (text : String) : ClaudeEvent
  | input_json_delta (index : Nat) (args : Json) : ClaudeEvent

/-- Whether an event is the consolidated-arguments `input_json_delta`. -/
def ClaudeEvent.isJsonDelta : ClaudeEvent → Bool
  | .input_json_delta _ _ => true
  | _ => false

/-- Modelled from the spec (§4.5 step 2a/2b): merge a fragment's `id`
(only when a non-empty string), `name`, and `arguments` (concatenated
after stringification, `null` ignored) into the tracked entry. -/
def mergeFragment (tc : ToolCallIndexState) (f : ToolCallDelta) : ToolCallIndexState :=
  { tc with
    tool_id :=
      match f.id with
      | some s => if s = "" then tc.tool_id else some s
      | none => tc.tool_id
    tool_name :=
      match f.name with
      | some s => some s
      | none => tc.tool_name
    args_buffer :=
      match f.arguments with
      | some j => match j with
        | Json.null => tc.args_buffer
        | j => tc.args_buffer ++ pyStr j
      | none => tc.args_buffer }

/-- Whether an optional string is present and non-empty. -/
def nonEmptyOpt : Option String → Bool
  | some s => s != ""
  | none => false

/-- Store an entry under an upstream index: replace the entry in place
when the key is tracked, append a fresh entry otherwise. -/
def setTool (m : List (Int × ToolCallIndexState)) (i : Int) (tc : ToolCallIndexState) :
    List (Int × ToolCallIndexState) :=
  if (m.lookup i).isSome then
    m.map (fun kv => if kv.1 = i then (i, tc) else kv)
  else m ++ [(i, tc)]

/-- Modelled from the spec (§4.5 step 2c): if not yet started and both
`tool_id` and `tool_name` are now non-empty, mark started, record the
allocated block index `outIdx`, and emit `content_block_start` with the
id/name known at that instant. -/
def startStep (outIdx : Nat) (tc1 : ToolCallIndexState) :
    ToolCallIndexState × List ClaudeEvent × Bool :=
  if !tc1.started && nonEmptyOpt tc1.tool_id && nonEmptyOpt tc1.tool_name then
    ({ tc1 with started := true, output_index := some outIdx },
     [ClaudeEvent.content_block_start outIdx "tool_use" tc1.tool_id tc1.tool_name],
     true)
  else (tc1, [], false)

/-- Modelled from the spec (§4.5 step 2d): if started and the consolidated
arguments event was not yet sent, try to parse the buffer; on success emit
exactly one `input_json_delta` and set `json_sent`. -/
def jsonStep (parse : String → Option Json) (tc2 : ToolCallIndexState) :
    ToolCallIndexState × List ClaudeEvent :=
  if tc2.started && !tc2.json_sent then
    match parse tc2.args_buffer with
    | some args =>
      ({ tc2 with json_sent := true },
       [ClaudeEvent.input_json_delta (tc2.output_index.getD 0) args])
    | none => (tc2, [])
  else (tc2, [])

/-- Modelled from the spec (§4.5 steps 2a-2d), per tracked entry: merge the
fragment, run the start transition, then the arguments-parse step.  Returns
the updated entry, the emitted events, and whether the entry started on
this fragment. -/
def stepEntry (parse : String → Option Json) (outIdx : Nat)
    (tc0 : ToolCallIndexState) (f : ToolCallDelta) :
    ToolCallIndexState × List ClaudeEvent × Bool :=
  let r1 := startStep outIdx (mergeFragment tc0 f)
  let r2 := jsonStep parse r1.1
  (r2.1, r1.2.1 ++ r2.2, r1.2.2)

/-- Modelled from the spec (§4.5 step 2): process one tool-call fragment
against the state — look up (or create) the entry for the fragment's
upstream index, run `stepEntry` with the next free block index, store the
entry back and bump `tool_block_counter` when the entry started. -/
def processToolFragment (parse : String → Option Json)
    (st : OpenAIToClaudeStreamState) (f : ToolCallDelta) :
    OpenAIToClaudeStreamState × List ClaudeEvent :=
  let tc0 :=
    match st.current_tool_calls.lookup f.index with
    | some tc => tc
    | none => {}
  let r := stepEntry parse (st.text_block_index + 1 + st.tool_block_counter) tc0 f
  ({ st with
      current_tool_calls := setTool st.current_tool_calls f.index r.1,
      tool_block_counter :=
        if r.2.2 then st.tool_block_counter + 1 else st.tool_block_counter },
   r.2.1)

/-- Modelled from the spec: the tool-call fragments of a chunk are
processed independently, in arrival order. -/
def processToolFragments (parse : String → Option Json) :
    OpenAIToClaudeStreamState → List ToolCallDelta →
    OpenAIToClaudeStreamState × List ClaudeEvent
  | st, [] => (st, [])
  | st, f :: fs =>
    let r1 := processToolFragment parse st f
    let r2 := processToolFragments parse r1.1 fs
    (r2.1, r1.2 ++ r2.2)

/-- Modelled from the spec (§4.5 step 3): the `finish_reason` →
`stop_reason` mapping, last non-null value wins. -/
def stopReasonOfFinish (fr : String) : String :=
  if fr = "length" then "max_tokens"
  else if fr = "tool_calls" then "tool_use"
  else "end_turn"

/-- Modelled from the spec (§4.5 step 1): non-empty text content emits a
`content_block_start` for the text block the first time text is seen, then
always a `text_delta`. -/
def textStep (st : OpenAIToClaudeStreamState) (content : Option String) :
    OpenAIToClaudeStreamState × List ClaudeEvent :=
  match content with
  | some t =>
    if t = "" then (st, [])
    else if st.text_block_started then
      (st, [ClaudeEvent.content_block_delta_text st.text_block_index t])
    else
      ({ st with text_block_started := true },
       [ClaudeEvent.content_block_start st.text_block_index "text" none none,
        ClaudeEvent.content_block_delta_text st.text_block_index t])
  | none => (st, [])

/-- Modelled from the spec (§4.5 step 3): a present `finish_reason`
overwrites `final_stop_reason` (last non-null value wins). -/
def finishStep (st : OpenAIToClaudeStreamState) (finish_reason : Option String) :
    OpenAIToClaudeStreamState :=
  match finish_reason with
  | some fr => { st with final_stop_reason := stopReasonOfFinish fr }
  | none => st

/-- Modelled from the spec: `ingest(state, chunk) → events[]` of §4.5 —
text content (opening the text block on first sight), tool-call fragments,
then the `finish_reason` overwrite. -/
def ingest_openai_chunk (parse : String → Option Json)
    (st : OpenAIToClaudeStreamState) (chunk : OpenAIChunk) :
    OpenAIToClaudeStreamState × List ClaudeEvent :=
  let r1 := textStep st chunk.content
  let r2 := processToolFragments parse r1.1 chunk.tool_calls
  (finishStep r2.1 chunk.finish_reason, r1.2 ++ r2.2)

/-- A fresh `StreamState` at stream start. -/
def freshState (message_id : String) : OpenAIToClaudeStreamState :=
  { message_id := message_id }

/-- The states reachable from a fresh state by ingesting any sequence of
chunks. -/
inductive ReachableState (parse : String → Option Json) : OpenAIToClaudeStreamState → Prop where
  | init (message_id : String) : ReachableState parse (freshState message_id)
  | step {st : OpenAIToClaudeStreamState} (chunk : OpenAIChunk) :
      ReachableState parse st → ReachableState parse (ingest_openai_chunk parse st chunk).1

/-!
## State-machine invariants (spec §3 / §8)
-/

/-- If an entry counts toward `tool_block_counter`: 1 when started. -/
def cntStarted (tc : ToolCallIndexState) : Nat :=
  if tc.started then 1 else 0

/-- The number of tracked entries with `started == true`. -/
def startedCount (m : List (Int × ToolCallIndexState)) : Nat :=
  (m.filter (fun kv => kv.2.started)).length

/-- The per-entry invariant of spec §3: `json_sent ⇒ started` and
`started ⇔ output_index set`. -/
def EntryInv (tc : ToolCallIndexState) : Prop :=
  (tc.json_sent = true → tc.started = true)
  ∧ (tc.started = true ↔ tc.output_index.isSome = true)

/-- The `StreamState` invariant of spec §3/§8:
`tool_block_counter == |{ t : t.started }|` plus the per-entry invariant
for every tracked tool. -/
def StateInv (st : OpenAIToClaudeStreamState) : Prop :=
  st.tool_block_counter = startedCount st.current_tool_calls
  ∧ ∀ kv ∈ st.current_tool_calls, EntryInv kv.2

/-- The tracked upstream indices are pairwise distinct (an internal
strengthening used for the induction; a dict cannot hold a key twice). -/
def NodupKeys (m : List (Int × ToolCallIndexState)) : Prop :=
  (m.map Prod.fst).Nodup

/-- The replace-in-place branch of `setTool`. -/
def replaceKey (m : List (Int × ToolCallIndexState)) (i : Int) (tc : ToolCallIndexState) :
    List (Int × ToolCallIndexState) :=
  m.map (fun kv => if kv.1 = i then (i, tc) else kv)

/-- The stringified contribution of one fragment's `arguments` to the
buffer: nothing for absent or `null` arguments, the Python `str` image
otherwise. -/
def fragArgString (f : ToolCallDelta) : String :=
  match f.arguments with
  | some j =>
    match j with
    | Json.null => ""
    | j => pyStr j
  | none => ""

/-- Concatenation of a list of strings in order. -/
def concatAll : List String → String
  | [] => ""
  | s :: rest => s ++ concatAll rest

/-- A concrete stand-in for `json.loads` used by closed witnesses (the
claims hold for every parse function). -/
def parse0 : String → Option Json := fun _ => none

/-- Whether a content block is a dict of type `tool_use`. -/
def isToolUseBlock (b : Json) : Bool :=
  b.isObj && (b.get "type").eqStr "tool_use"

/-- The round-trip example response of the spec (§8): a `tool_use` stop
with one `tool_use` content block. -/
def exampleToolResp : Json :=
  Json.obj
    [("stop_reason", Json.str "tool_use"),
     ("content", Json.arr [Json.obj
       [("type", Json.str "tool_use"),
        ("id", Json.str "t1"),
        ("name", Json.str "search"),
        ("input", Json.obj [("q", Json.str "x")])]])]

/-- Three system messages, the middle one with empty text. -/
def reqSysW : OpenAIRequest :=
  { max_tokens := Json.int 5,
    messages := [{ role := Json.str "system", content := Json.str "a" },
                 { role := Json.str "system", content := Json.str "" },
                 { role := Json.str "system", content := Json.str "b" }] }

/-- The output the converter produces on `reqSysW`. -/
def outSysW : AnthropicRequest :=
  { model := "m", max_tokens := Json.int 5, stream := false,
    system := some "a\n\nb", messages := [], tools := none }

/-- A request with one `user` message whose content is absent. -/
def reqNullW : OpenAIRequest :=
  { max_tokens := Json.int 5, messages := [{ role := Json.str "user" }] }

/-- The output the converter produces on `reqNullW`. -/
def outNullW : AnthropicRequest :=
  { model := "m", max_tokens := Json.int 5, stream := false,
    messages := [Json.obj [("role", Json.str "user"), ("content", Json.arr [])]] }

/-- A concrete `json.loads` stand-in for closed inputs: parses exactly the
literal `null` (as Python's does), nothing else. -/
def parseNull : String → Option Json :=
  fun s => if s = "null" then some Json.null else none

/-- A concrete configuration triple for closed inputs. -/
def cfg0 : SseCfg := { model := "m", completion_id := "c", created := 0 }

/-- A payload with a non-empty `text_delta`. -/
def payloadTextW : Json :=
  Json.obj [("delta", Json.obj [("type", Json.str "text_delta"), ("text", Json.str "Hi")])]

/-- A payload with an empty `text_delta` text. -/
def payloadEmptyW : Json :=
  Json.obj [("delta", Json.obj [("type", Json.str "text_delta"), ("text", Json.str "")])]

/-- A concrete `json.loads` stand-in mapping two fixed fragments to the
two payloads above. -/
def parseTextW : String → Option Json :=
  fun s => if s = "p" then some payloadTextW
    else if s = "q" then some payloadEmptyW
    else none

/-- No consolidated-arguments event (`input_json_delta`) carrying block
index `n` occurs among `evs`. -/
def NoJsonDeltaAt (n : Nat) (evs : List ClaudeEvent) : Prop :=
  ∀ args : Json, ClaudeEvent.input_json_delta n args ∉ evs

/-- Every started entry's allocated block index lies strictly below the
next free block index (`text_block_index + 1 + tool_block_counter`); an
internal strengthening used for the reachability induction. -/
def OutBound (st : OpenAIToClaudeStreamState) : Prop :=
  ∀ kv ∈ st.current_tool_calls, kv.2.started = true →
    ∀ n : Nat, kv.2.output_index = some n →
      n < st.text_block_index + 1 + st.tool_block_counter

/-- Two started entries sharing an allocated block index are the same
entry (spec §3: an `output_index` is never reused for another tool); an
internal strengthening used for the reachability induction. -/
def OutInj (m : List (Int × ToolCallIndexState)) : Prop :=
  ∀ p ∈ m, ∀ q ∈ m, p.2.started = true → q.2.started = true →
    p.2.output_index = q.2.output_index → p.1 = q.1

/-- The state invariants together with the block-index strengthenings. -/
def FullInv (st : OpenAIToClaudeStreamState) : Prop :=
  StateInv st ∧ NodupKeys st.current_tool_calls
    ∧ OutBound st ∧ OutInj st.current_tool_calls

/-- A concrete `json.loads` stand-in parsing exactly the two-character
object literal, used to build a reachable `json_sent` state. -/
def parseObjW : String → Option Json :=
  fun s => if s = "\x7b\x7d" then some (Json.obj []) else none

/-- A chunk that starts tool index 0 with complete JSON arguments. -/
def chunkStartW : OpenAIChunk :=
  { tool_calls := [{ index := 0, id := some "call_0", name := some "tool",
                     arguments := some (Json.str "\x7b\x7d") }] }

/-- A further chunk mixing an argument fragment for the tracked index 0
with fragments that start a different tool at index 1. -/
def chunkMixedW : OpenAIChunk :=
  { tool_calls := [{ index := 0, arguments := some (Json.str "x") },
                   { index := 1, id := some "call_1", name := some "tool1",
                     arguments := some (Json.str "\x7b\x7d") }] }

/-- The reachable state after ingesting `chunkStartW` into a fresh state. -/
def stReachW : OpenAIToClaudeStreamState :=
  (ingest_openai_chunk parseObjW (freshState "msg_test") chunkStartW).1

/-- The entry `stReachW` tracks at upstream index 0 (`json_sent` already
true, block index 1 allocated). -/
def tcReachW : ToolCallIndexState :=
  { tool_id := some "call_0", tool_name := some "tool", args_buffer := "\x7b\x7d",
    started := true, json_sent := true, output_index := some 1 }

theorem startedCount_nil : startedCount [] = 0 := rfl

theorem startedCount_cons (kv : Int × ToolCallIndexState)
    (m : List (Int × ToolCallIndexState)) :
    startedCount (kv :: m) = cntStarted kv.2 + startedCount m := by
  by_cases h : kv.2.started <;>
    simp [startedCount, cntStarted, h, List.filter_cons, Nat.add_comm]

theorem startedCount_append (m₁ m₂ : List (Int × ToolCallIndexState)) :
    startedCount (m₁ ++ m₂) = startedCount m₁ + startedCount m₂ := by
  simp [startedCount, List.filter_append]

theorem lookup_mem {m : List (Int × ToolCallIndexState)} {i : Int}
    {tc : ToolCallIndexState} (h : m.lookup i = some tc) : (i, tc) ∈ m := by
  induction m with
  | nil => simp [List.lookup] at h
  | cons kv rest ih =>
    obtain ⟨k, v⟩ := kv
    by_cases hk : i = k
    · subst hk
      simp [List.lookup] at h
      simp [h]
    · have hbeq : (i == k) = false := by simpa using hk
      simp [List.lookup, hbeq] at h
      exact List.mem_cons_of_mem _ (ih h)

theorem lookup_none_not_mem {m : List (Int × ToolCallIndexState)} {i : Int}
    (h : m.lookup i = none) : i ∉ m.map Prod.fst := by
  induction m with
  | nil => simp
  | cons kv rest ih =>
    obtain ⟨k, v⟩ := kv
    by_cases hk : i = k
    · subst hk; simp [List.lookup] at h
    · have hbeq : (i == k) = false := by simpa using hk
      have hrest : rest.lookup i = none := by simpa [List.lookup, hbeq] using h
      rw [List.map_cons]
      intro hmem
      rcases List.mem_cons.mp hmem with h1 | h2
      · exact hk h1
      · exact ih hrest h2

theorem map_replace_of_not_mem {m : List (Int × ToolCallIndexState)} {i : Int}
    {tc : ToolCallIndexState} (h : i ∉ m.map Prod.fst) :
    m.map (fun kv => if kv.1 = i then (i, tc) else kv) = m := by
  induction m with
  | nil => rfl
  | cons kv rest ih =>
    obtain ⟨k, v⟩ := kv
    have h1 : ¬ (k = i) := by
      intro he; exact h (by simp [he])
    have h2 : i ∉ rest.map Prod.fst := fun hm => h (by simp; right; simpa using hm)
    simp [h1, ih h2]

theorem replaceKey_nil (i : Int) (tc : ToolCallIndexState) : replaceKey [] i tc = [] := rfl

theorem replaceKey_cons (k : Int) (v : ToolCallIndexState)
    (rest : List (Int × ToolCallIndexState)) (i : Int) (tc : ToolCallIndexState) :
    replaceKey ((k, v) :: rest) i tc
      = (if k = i then (i, tc) else (k, v)) :: replaceKey rest i tc := rfl

theorem setTool_of_isSome {m : List (Int × ToolCallIndexState)} {i : Int}
    (tc : ToolCallIndexState) (h : (m.lookup i).isSome) :
    setTool m i tc = replaceKey m i tc := by
  simp [setTool, replaceKey, h]

theorem setTool_of_none {m : List (Int × ToolCallIndexState)} {i : Int}
    (tc : ToolCallIndexState) (h : m.lookup i = none) :
    setTool m i tc = m ++ [(i, tc)] := by
  simp [setTool, h]

theorem lookup_cons_ne {k : Int} {v : ToolCallIndexState}
    {rest : List (Int × ToolCallIndexState)} {i : Int} (hk : ¬ i = k) :
    ((k, v) :: rest).lookup i = rest.lookup i := by
  have hbeq : (i == k) = false := by simpa using hk
  simp [List.lookup, hbeq]

theorem lookup_cons_self {k : Int} {v : ToolCallIndexState}
    {rest : List (Int × ToolCallIndexState)} :
    ((k, v) :: rest).lookup k = some v := by
  simp [List.lookup]

theorem lookup_append_of_none {m l : List (Int × ToolCallIndexState)} {i : Int}
    (h : m.lookup i = none) : (m ++ l).lookup i = l.lookup i := by
  induction m with
  | nil => rfl
  | cons kv rest ih =>
    obtain ⟨k, v⟩ := kv
    by_cases hk : i = k
    · subst hk; rw [lookup_cons_self] at h; exact absurd h (by simp)
    · rw [List.cons_append, lookup_cons_ne hk]
      rw [lookup_cons_ne hk] at h
      exact ih h

theorem nodupKeys_cons {k : Int} {v : ToolCallIndexState}
    {rest : List (Int × ToolCallIndexState)} (hn : NodupKeys ((k, v) :: rest)) :
    k ∉ rest.map Prod.fst ∧ NodupKeys rest :=
  List.nodup_cons.mp (show (k :: rest.map Prod.fst).Nodup from hn)

theorem lookup_replaceKey_self {m : List (Int × ToolCallIndexState)} {i : Int}
    (tc : ToolCallIndexState) (h : (m.lookup i).isSome) :
    (replaceKey m i tc).lookup i = some tc := by
  induction m with
  | nil => simp [List.lookup] at h
  | cons kv rest ih =>
    obtain ⟨k, v⟩ := kv
    rw [replaceKey_cons]
    by_cases hk : k = i
    · rw [if_pos hk, lookup_cons_self]
    · rw [if_neg hk, lookup_cons_ne (fun he => hk he.symm)]
      rw [lookup_cons_ne (fun he => hk he.symm)] at h
      exact ih h

theorem lookup_setTool_self {m : List (Int × ToolCallIndexState)} {i : Int}
    (tc : ToolCallIndexState) : (setTool m i tc).lookup i = some tc := by
  cases hs : m.lookup i with
  | some t =>
    rw [setTool_of_isSome tc (by simp [hs])]
    exact lookup_replaceKey_self tc (by simp [hs])
  | none =>
    rw [setTool_of_none tc hs, lookup_append_of_none hs]
    exact lookup_cons_self

theorem mem_setTool {m : List (Int × ToolCallIndexState)} {i : Int}
    {tc : ToolCallIndexState} {kv : Int × ToolCallIndexState}
    (h : kv ∈ setTool m i tc) : kv = (i, tc) ∨ kv ∈ m := by
  cases hs : m.lookup i with
  | some t =>
    rw [setTool_of_isSome tc (by simp [hs])] at h
    rcases List.mem_map.mp h with ⟨kv', hmem, heq⟩
    by_cases hk : kv'.1 = i
    · left; rw [← heq]; simp [hk]
    · right; rw [← heq]; simpa [hk] using hmem
  | none =>
    rw [setTool_of_none tc hs] at h
    rcases List.mem_append.mp h with h1 | h2
    · exact Or.inr h1
    · exact Or.inl (by simpa using h2)

theorem nodupKeys_setTool {m : List (Int × ToolCallIndexState)} {i : Int}
    {tc : ToolCallIndexState} (hn : NodupKeys m) : NodupKeys (setTool m i tc) := by
  cases hs : m.lookup i with
  | some t =>
    rw [setTool_of_isSome tc (by simp [hs])]
    have hkeys : (replaceKey m i tc).map Prod.fst = m.map Prod.fst := by
      unfold replaceKey
      rw [List.map_map]
      apply List.map_congr_left
      intro kv _
      by_cases hk : kv.1 = i <;> simp [hk]
    unfold NodupKeys
    rw [hkeys]
    exact hn
  | none =>
    rw [setTool_of_none tc hs]
    unfold NodupKeys
    rw [List.map_append]
    refine List.Nodup.append hn (by simp) ?_
    intro a ha hb
    have : a = i := by simpa using hb
    subst this
    exact lookup_none_not_mem hs ha

theorem startedCount_replaceKey {m : List (Int × ToolCallIndexState)} {i : Int}
    {tcOld tc : ToolCallIndexState} (hn : NodupKeys m) (h : m.lookup i = some tcOld) :
    startedCount (replaceKey m i tc) + cntStarted tcOld
      = startedCount m + cntStarted tc := by
  induction m with
  | nil => simp [List.lookup] at h
  | cons kv rest ih =>
    obtain ⟨k, v⟩ := kv
    have hn' := nodupKeys_cons hn
    by_cases hk : i = k
    · subst hk
      rw [lookup_cons_self] at h
      have hv : v = tcOld := by simpa using h
      subst hv
      have hrepl : replaceKey rest i tc = rest := map_replace_of_not_mem hn'.1
      rw [replaceKey_cons, if_pos rfl, hrepl, startedCount_cons, startedCount_cons]
      have e1 : cntStarted ((i, v)).2 = cntStarted v := rfl
      have e2 : cntStarted ((i, tc)).2 = cntStarted tc := rfl
      rw [e1, e2]
      omega
    · rw [lookup_cons_ne hk] at h
      rw [replaceKey_cons, if_neg (fun he => hk he.symm),
        startedCount_cons, startedCount_cons]
      have := ih hn'.2 h
      omega

theorem startedCount_setTool_some {m : List (Int × ToolCallIndexState)} {i : Int}
    {tcOld tc : ToolCallIndexState} (hn : NodupKeys m) (h : m.lookup i = some tcOld) :
    startedCount (setTool m i tc) + cntStarted tcOld
      = startedCount m + cntStarted tc := by
  rw [setTool_of_isSome tc (by simp [h])]
  exact startedCount_replaceKey hn h

theorem startedCount_setTool_none {m : List (Int × ToolCallIndexState)} {i : Int}
    {tc : ToolCallIndexState} (h : m.lookup i = none) :
    startedCount (setTool m i tc) = startedCount m + cntStarted tc := by
  rw [setTool_of_none tc h, startedCount_append, startedCount_cons]
  simp [startedCount]

theorem mergeFragment_started (tc : ToolCallIndexState) (f : ToolCallDelta) :
    (mergeFragment tc f).started = tc.started := rfl

theorem mergeFragment_json_sent (tc : ToolCallIndexState) (f : ToolCallDelta) :
    (mergeFragment tc f).json_sent = tc.json_sent := rfl

theorem mergeFragment_output_index (tc : ToolCallIndexState) (f : ToolCallDelta) :
    (mergeFragment tc f).output_index = tc.output_index := rfl

theorem mergeFragment_args (tc : ToolCallIndexState) (f : ToolCallDelta) :
    (mergeFragment tc f).args_buffer = tc.args_buffer ++ fragArgString f := by
  unfold mergeFragment fragArgString
  cases h : f.arguments with
  | none => simp
  | some j => cases j <;> simp

theorem entryInv_merge {tc : ToolCallIndexState} (f : ToolCallDelta)
    (h : EntryInv tc) : EntryInv (mergeFragment tc f) := by
  unfold EntryInv at *
  rw [mergeFragment_started, mergeFragment_json_sent, mergeFragment_output_index]
  exact h

theorem startStep_spec (outIdx : Nat) (tc : ToolCallIndexState) :
    ((!tc.started && nonEmptyOpt tc.tool_id && nonEmptyOpt tc.tool_name) = true
      ∧ startStep outIdx tc
        = ({ tc with started := true, output_index := some outIdx },
           [ClaudeEvent.content_block_start outIdx "tool_use" tc.tool_id tc.tool_name],
           true))
    ∨ ((!tc.started && nonEmptyOpt tc.tool_id && nonEmptyOpt tc.tool_name) = false
      ∧ startStep outIdx tc = (tc, [], false)) := by
  by_cases h : (!tc.started && nonEmptyOpt tc.tool_id && nonEmptyOpt tc.tool_name) = true
  · left; exact ⟨h, by unfold startStep; rw [if_pos h]⟩
  · right
    refine ⟨by simpa using h, ?_⟩
    unfold startStep; rw [if_neg h]

theorem jsonStep_spec (parse : String → Option Json) (tc : ToolCallIndexState) :
    (∃ args, tc.started = true ∧ tc.json_sent = false
      ∧ parse tc.args_buffer = some args
      ∧ jsonStep parse tc
        = ({ tc with json_sent := true },
           [ClaudeEvent.input_json_delta (tc.output_index.getD 0) args]))
    ∨ jsonStep parse tc = (tc, []) := by
  by_cases h : (tc.started && !tc.json_sent) = true
  · have hparts := (Bool.and_eq_true _ _).mp h
    cases hp : parse tc.args_buffer with
    | none => right; unfold jsonStep; rw [if_pos h, hp]
    | some args =>
      left
      exact ⟨args, hparts.1, by simpa using hparts.2, rfl,
        by unfold jsonStep; rw [if_pos h, hp]⟩
  · right; unfold jsonStep; rw [if_neg h]

theorem jsonStep_of_json_sent {parse : String → Option Json} {tc : ToolCallIndexState}
    (h : tc.json_sent = true) : jsonStep parse tc = (tc, []) := by
  unfold jsonStep
  rw [if_neg (by simp [h])]

theorem entryInv_default : EntryInv {} := by
  refine ⟨fun h => ?_, ?_⟩ <;> simp at *

theorem cntStarted_le_one (tc : ToolCallIndexState) : cntStarted tc ≤ 1 := by
  unfold cntStarted; split <;> simp

theorem stepEntry_entryInv {parse : String → Option Json} {outIdx : Nat}
    {tc0 : ToolCallIndexState} {f : ToolCallDelta} (h : EntryInv tc0) :
    EntryInv (stepEntry parse outIdx tc0 f).1 := by
  unfold stepEntry
  have h1 := entryInv_merge f h
  rcases startStep_spec outIdx (mergeFragment tc0 f) with ⟨hc, hEq⟩ | ⟨hc, hEq⟩ <;>
    rw [hEq] <;> dsimp only
  · rcases jsonStep_spec parse
        { mergeFragment tc0 f with started := true, output_index := some outIdx } with
      ⟨args, hs, hj, hp, hEq2⟩ | hEq2 <;> rw [hEq2] <;>
      exact ⟨by simp, by simp⟩
  · rcases jsonStep_spec parse (mergeFragment tc0 f) with
      ⟨args, hs, hj, hp, hEq2⟩ | hEq2 <;> rw [hEq2]
    · exact ⟨fun _ => by simpa using hs, by simpa [EntryInv, hs] using h1.2.mp hs⟩
    · exact h1

theorem stepEntry_cnt (parse : String → Option Json) (outIdx : Nat)
    (tc0 : ToolCallIndexState) (f : ToolCallDelta) :
    cntStarted (stepEntry parse outIdx tc0 f).1
      = cntStarted tc0 + (if (stepEntry parse outIdx tc0 f).2.2 then 1 else 0) := by
  unfold stepEntry
  rcases startStep_spec outIdx (mergeFragment tc0 f) with ⟨hc, hEq⟩ | ⟨hc, hEq⟩ <;>
    rw [hEq] <;> dsimp only
  · have hold : tc0.started = false := by
      have := ((Bool.and_eq_true _ _).mp ((Bool.and_eq_true _ _).mp hc).1).1
      rw [← mergeFragment_started tc0 f]
      simpa using this
    rcases jsonStep_spec parse
        { mergeFragment tc0 f with started := true, output_index := some outIdx } with
      ⟨args, hs, hj, hp, hEq2⟩ | hEq2 <;> rw [hEq2] <;>
      simp [cntStarted, hold]
  · rcases jsonStep_spec parse (mergeFragment tc0 f) with
      ⟨args, hs, hj, hp, hEq2⟩ | hEq2 <;> rw [hEq2] <;>
      simp [cntStarted, mergeFragment_started]

theorem stateInv_congr {s t : OpenAIToClaudeStreamState}
    (h1 : t.tool_block_counter = s.tool_block_counter)
    (h2 : t.current_tool_calls = s.current_tool_calls)
    (h : StateInv s) : StateInv t := by
  unfold StateInv at *
  rw [h1, h2]
  exact h

theorem processToolFragment_counter (parse : String → Option Json)
    (st : OpenAIToClaudeStreamState) (f : ToolCallDelta) :
    (processToolFragment parse st f).1.current_tool_calls
        = setTool st.current_tool_calls f.index
            (stepEntry parse (st.text_block_index + 1 + st.tool_block_counter)
              (match st.current_tool_calls.lookup f.index with
               | some tc => tc
               | none => {}) f).1
      ∧ (processToolFragment parse st f).1.tool_block_counter
        = (if (stepEntry parse (st.text_block_index + 1 + st.tool_block_counter)
                (match st.current_tool_calls.lookup f.index with
                 | some tc => tc
                 | none => {}) f).2.2
           then st.tool_block_counter + 1 else st.tool_block_counter) :=
  ⟨rfl, rfl⟩

theorem strongInv_processToolFragment (parse : String → Option Json)
    (st : OpenAIToClaudeStreamState) (f : ToolCallDelta)
    (h : StateInv st) (hn : NodupKeys st.current_tool_calls) :
    StateInv (processToolFragment parse st f).1
      ∧ NodupKeys (processToolFragment parse st f).1.current_tool_calls := by
  obtain ⟨hmap, hcounter⟩ := processToolFragment_counter parse st f
  cases hl : st.current_tool_calls.lookup f.index with
  | some tcOld =>
    rw [hl] at hmap hcounter
    dsimp only at hmap hcounter
    have hInvOld : EntryInv tcOld := h.2 _ (lookup_mem hl)
    have hInvNew := @stepEntry_entryInv parse
      (st.text_block_index + 1 + st.tool_block_counter) tcOld f hInvOld
    have hcnt := stepEntry_cnt parse (st.text_block_index + 1 + st.tool_block_counter) tcOld f
    have hsc := @startedCount_setTool_some st.current_tool_calls f.index tcOld
      ((stepEntry parse (st.text_block_index + 1 + st.tool_block_counter) tcOld f).1) hn hl
    refine ⟨⟨?_, ?_⟩, ?_⟩
    · rw [hcounter, hmap]
      have hc := h.1
      cases hb : (stepEntry parse (st.text_block_index + 1 + st.tool_block_counter)
          tcOld f).2.2 with
      | true =>
        rw [hb] at hcnt
        rw [if_pos rfl]
        simp at hcnt
        omega
      | false =>
        rw [hb] at hcnt
        rw [if_neg (by simp)]
        simp only [Bool.false_eq_true, if_false, Nat.add_zero] at hcnt
        omega
    · intro kv hkv
      rw [hmap] at hkv
      rcases mem_setTool hkv with hEq | hm
      · rw [hEq]; exact hInvNew
      · exact h.2 kv hm
    · rw [hmap]; exact nodupKeys_setTool hn
  | none =>
    rw [hl] at hmap hcounter
    dsimp only at hmap hcounter
    have hInvNew := @stepEntry_entryInv parse
      (st.text_block_index + 1 + st.tool_block_counter) {} f entryInv_default
    have hcnt := stepEntry_cnt parse (st.text_block_index + 1 + st.tool_block_counter) {} f
    have hsc := @startedCount_setTool_none st.current_tool_calls f.index
      ((stepEntry parse (st.text_block_index + 1 + st.tool_block_counter) {} f).1) hl
    refine ⟨⟨?_, ?_⟩, ?_⟩
    · rw [hcounter, hmap]
      have hc := h.1
      have hzero : cntStarted ({} : ToolCallIndexState) = 0 := rfl
      rw [hzero] at hcnt
      cases hb : (stepEntry parse (st.text_block_index + 1 + st.tool_block_counter)
          {} f).2.2 with
      | true =>
        rw [hb] at hcnt
        rw [if_pos rfl]
        simp at hcnt
        omega
      | false =>
        rw [hb] at hcnt
        rw [if_neg (by simp)]
        simp only [Bool.false_eq_true, if_false, Nat.add_zero] at hcnt
        omega
    · intro kv hkv
      rw [hmap] at hkv
      rcases mem_setTool hkv with hEq | hm
      · rw [hEq]; exact hInvNew
      · exact h.2 kv hm
    · rw [hmap]; exact nodupKeys_setTool hn

theorem strongInv_processToolFragments (parse : String → Option Json)
    (fs : List ToolCallDelta) :
    ∀ st : OpenAIToClaudeStreamState, StateInv st → NodupKeys st.current_tool_calls →
      StateInv (processToolFragments parse st fs).1
        ∧ NodupKeys (processToolFragments parse st fs).1.current_tool_calls := by
  induction fs with
  | nil => intro st h hn; exact ⟨h, hn⟩
  | cons f fs ih =>
    intro st h hn
    have h1 := strongInv_processToolFragment parse st f h hn
    have h2 := ih (processToolFragment parse st f).1 h1.1 h1.2
    simpa [processToolFragments] using h2

theorem textStep_fields (st : OpenAIToClaudeStreamState) (content : Option String) :
    (textStep st content).1.tool_block_counter = st.tool_block_counter
      ∧ (textStep st content).1.current_tool_calls = st.current_tool_calls := by
  unfold textStep
  cases content with
  | none => exact ⟨rfl, rfl⟩
  | some t =>
    by_cases h : t = ""
    · simp [h]
    · by_cases hb : st.text_block_started <;> simp [h, hb]

theorem finishStep_fields (st : OpenAIToClaudeStreamState) (fr : Option String) :
    (finishStep st fr).tool_block_counter = st.tool_block_counter
      ∧ (finishStep st fr).current_tool_calls = st.current_tool_calls := by
  unfold finishStep
  cases fr with
  | none => exact ⟨rfl, rfl⟩
  | some fr => exact ⟨rfl, rfl⟩

theorem strongInv_ingest (parse : String → Option Json)
    (st : OpenAIToClaudeStreamState) (chunk : OpenAIChunk)
    (h : StateInv st) (hn : NodupKeys st.current_tool_calls) :
    StateInv (ingest_openai_chunk parse st chunk).1
      ∧ NodupKeys (ingest_openai_chunk parse st chunk).1.current_tool_calls := by
  have ht := textStep_fields st chunk.content
  have h1 : StateInv (textStep st chunk.content).1 :=
    stateInv_congr ht.1 ht.2 h
  have hn1 : NodupKeys (textStep st chunk.content).1.current_tool_calls := by
    rw [ht.2]; exact hn
  have h2 := strongInv_processToolFragments parse chunk.tool_calls _ h1 hn1
  have hf := finishStep_fields (processToolFragments parse (textStep st chunk.content).1
    chunk.tool_calls).1 chunk.finish_reason
  have hmain : (ingest_openai_chunk parse st chunk).1
      = finishStep (processToolFragments parse (textStep st chunk.content).1
          chunk.tool_calls).1 chunk.finish_reason := rfl
  rw [hmain]
  exact ⟨stateInv_congr hf.1 hf.2 h2.1, by rw [hf.2]; exact h2.2⟩

theorem stateInv_fresh (message_id : String) : StateInv (freshState message_id) := by
  refine ⟨rfl, ?_⟩
  intro kv hkv
  simp [freshState] at hkv

theorem nodupKeys_fresh (message_id : String) :
    NodupKeys (freshState message_id).current_tool_calls := by
  simp [freshState, NodupKeys]

theorem strongInv_reachable {parse : String → Option Json}
    {st : OpenAIToClaudeStreamState} (h : ReachableState parse st) :
    StateInv st ∧ NodupKeys st.current_tool_calls := by
  induction h with
  | init mid => exact ⟨stateInv_fresh mid, nodupKeys_fresh mid⟩
  | step chunk _ ih => exact strongInv_ingest _ _ chunk ih.1 ih.2

theorem textStep_noJson (st : OpenAIToClaudeStreamState) (content : Option String) :
    ∀ e ∈ (textStep st content).2, e.isJsonDelta = false := by
  unfold textStep
  cases content with
  | none => intro e he; simp at he
  | some t =>
    by_cases h : t = ""
    · intro e he; simp [h] at he
    · by_cases hb : st.text_block_started <;>
        · intro e he
          simp [h, hb] at he
          first
          | (rw [he]; rfl)
          | (rcases he with he | he <;> rw [he] <;> rfl)

/-- C1: for every reachable `StreamState` of the B→A stream translator
(reachable = produced from a fresh state by any sequence of
`ingest_openai_chunk` calls), after every ingestion step
`tool_block_counter` equals the number of tracked tool-call entries with
`started == true`; for every tracked entry `json_sent` implies `started`;
and `started` holds iff `output_index` is set. -/
theorem c1_reachable_state_invariants (parse : String → Option Json)
    (st : OpenAIToClaudeStreamState) (h : ReachableState parse st) :
    StateInv st :=
  (strongInv_reachable h).1

/-- Witness for C1 at a concrete reachable state: one chunk carrying text,
a tool fragment and a finish reason ingested into a fresh state. -/
theorem c1_reachable_state_invariants_witness :
    StateInv (ingest_openai_chunk parse0 (freshState "msg_test")
      { content := some "Hi",
        tool_calls := [{ index := 0, id := some "c1", name := some "calc",
                         arguments := some (Json.str "x") }],
        finish_reason := some "stop" }).1 :=
  c1_reachable_state_invariants parse0 _
    (ReachableState.step _ (ReachableState.init "msg_test"))

/-- C4: the `stop_reason` → `finish_reason` mapping the A→B stream
translator applies in its `message_delta` branch agrees, for every JSON
`stop_reason` value, with the mapping of the non-stream response
converter: `tool_use` → `tool_calls`, `max_tokens` → `length`, anything
else (including absent, i.e. `null`) → `stop`. -/
theorem c4_finish_reason_mappings_agree :
    (∀ stop_reason : Json,
      stream_finish_reason stop_reason = nonstream_finish_reason stop_reason)
    ∧ stream_finish_reason (Json.str "tool_use") = "tool_calls"
    ∧ stream_finish_reason (Json.str "max_tokens") = "length"
    ∧ stream_finish_reason Json.null = "stop"
    ∧ (∀ stop_reason : Json,
        ¬ stop_reason = Json.str "tool_use" → ¬ stop_reason = Json.str "max_tokens" →
        stream_finish_reason stop_reason = "stop") := by
  refine ⟨fun _ => rfl, rfl, rfl, rfl, ?_⟩
  intro j h1 h2
  have e1 : j.eqStr "tool_use" = false := by
    cases j <;> try rfl
    case str t =>
      simp [Json.eqStr]
      intro he
      exact h1 (by rw [he])
  have e2 : j.eqStr "max_tokens" = false := by
    cases j <;> try rfl
    case str t =>
      simp [Json.eqStr]
      intro he
      exact h2 (by rw [he])
  unfold stream_finish_reason
  rw [e1, e2]
  simp

/-- Witness for C4 at a concrete non-special `stop_reason`. -/
theorem c4_finish_reason_mappings_agree_witness :
    ¬ Json.str "end_turn" = Json.str "tool_use"
    ∧ ¬ Json.str "end_turn" = Json.str "max_tokens"
    ∧ stream_finish_reason (Json.str "end_turn") = "stop" := by
  refine ⟨?_, ?_, ?_⟩
  · intro h; injection h with h; exact absurd h (by decide)
  · intro h; injection h with h; exact absurd h (by decide)
  · exact c4_finish_reason_mappings_agree.2.2.2.2 (Json.str "end_turn")
      (fun h => by injection h with h; exact absurd h (by decide))
      (fun h => by injection h with h; exact absurd h (by decide))

theorem eqStr_text_not_tool_use {j : Json} (h : j.eqStr "text" = true) :
    j.eqStr "tool_use" = false := by
  cases j <;> simp [Json.eqStr] at h ⊢
  rw [h]
  decide

theorem collectBlocks_tool_calls (blocks : List Json) :
    (collectBlocks blocks).2 = (blocks.filter isToolUseBlock).map toolCallEntry := by
  induction blocks with
  | nil => rfl
  | cons block rest ih =>
    unfold collectBlocks
    by_cases hobj : block.isObj = true
    · by_cases htext : (block.get "type").eqStr "text" = true
      · have htu : isToolUseBlock block = false := by
          unfold isToolUseBlock
          rw [eqStr_text_not_tool_use htext]
          simp
        rw [List.filter_cons_of_neg (by simp [htu])]
        simp only [hobj, htext]
        simpa using ih
      · by_cases htu : (block.get "type").eqStr "tool_use" = true
        · have hblk : isToolUseBlock block = true := by
            unfold isToolUseBlock
            rw [hobj, htu]
            rfl
          rw [List.filter_cons_of_pos (by simp [hblk])]
          simp only [hobj, htext, htu]
          simp only [Bool.not_eq_true] at htext
          simp [htext, List.map_cons]
          exact ih
        · have hblk : isToolUseBlock block = false := by
            unfold isToolUseBlock
            rw [hobj]
            simpa using htu
          rw [List.filter_cons_of_neg (by simp [hblk])]
          simp only [Bool.not_eq_true] at htext htu
          simp only [hobj, htext, htu]
          simpa using ih
    · have hblk : isToolUseBlock block = false := by
        unfold isToolUseBlock
        simp only [Bool.not_eq_true] at hobj
        rw [hobj]
        rfl
      rw [List.filter_cons_of_neg (by simp [hblk])]
      simp only [Bool.not_eq_true] at hobj
      simp only [hobj]
      simpa using ih

/-- C5: each `tool_use` content block maps to a `tool_calls` entry of
shape `{id, type:"function", function:{name, arguments}}` with `arguments`
the JSON encoding of the block's input as a string, the `tool_calls` key
being omitted (`none`) exactly when there is no `tool_use` block; on the
spec's example response the result has `finish_reason "tool_calls"` and
one entry whose `function.arguments` is the string `{"q": "x"}`. -/
theorem c5_tool_use_blocks_mapping :
    (∀ (created : Int) (anthropic : Json),
      (anthropic_message_to_openai_chat_completion created anthropic).message.tool_calls
        = (if ((pyOr (anthropic.getD "content" (Json.arr []))
                  (Json.arr [])).asList.filter isToolUseBlock).isEmpty then none
           else some (((pyOr (anthropic.getD "content" (Json.arr []))
                  (Json.arr [])).asList.filter isToolUseBlock).map toolCallEntry)))
    ∧ (∀ block : Json, toolCallEntry block
        = Json.obj
            [("id", block.get "id"),
             ("type", Json.str "function"),
             ("function", Json.obj
               [("name", block.get "name"),
                ("arguments", Json.str (pyDumps (pyOr (block.get "input") (Json.obj []))))])])
    ∧ (anthropic_message_to_openai_chat_completion 0 exampleToolResp).finish_reason
        = "tool_calls"
    ∧ (anthropic_message_to_openai_chat_completion 0 exampleToolResp).message.tool_calls
        = some [Json.obj
            [("id", Json.str "t1"),
             ("type", Json.str "function"),
             ("function", Json.obj
               [("name", Json.str "search"),
                ("arguments", Json.str "\x7b\"q\": \"x\"\x7d")])]] := by
  refine ⟨?_, fun _ => rfl, rfl, rfl⟩
  intro created anthropic
  show (if (collectBlocks ((pyOr (anthropic.getD "content" (Json.arr []))
          (Json.arr [])).asList)).2.isEmpty then none
        else some (collectBlocks ((pyOr (anthropic.getD "content" (Json.arr []))
          (Json.arr [])).asList)).2) = _
  rw [collectBlocks_tool_calls]
  cases (pyOr (anthropic.getD "content" (Json.arr []))
      (Json.arr [])).asList.filter isToolUseBlock <;> simp

theorem truthy_isNull {j : Json} (h : j.truthy = true) : j.isNull = false := by
  cases j <;> simp_all [Json.truthy, Json.isNull]

theorem pyOr_isNull (a b : Json) :
    (pyOr a b).isNull = (!a.truthy && b.isNull) := by
  unfold pyOr
  by_cases h : a.truthy = true
  · rw [if_pos h, h, truthy_isNull h]
    rfl
  · have h' : a.truthy = false := by simpa using h
    rw [if_neg (by simp [h']), h']
    rfl

/-- C3 counterexample: the claim says the converter fails iff neither
`max_tokens` nor `max_completion_tokens` is present; but a request whose
`max_tokens` is present with value `0` (and no `max_completion_tokens`)
still fails, because the source derives the value with Python `or`, which
treats `0` as absent. -/
theorem c3_counterexample :
    ¬ ({ max_tokens := Json.int 0 } : OpenAIRequest).max_tokens = Json.null
    ∧ openai_chat_completions_to_anthropic_messages { max_tokens := Json.int 0 } "m"
        = Except.error "OpenAI request missing max_tokens" :=
  ⟨fun h => Json.noConfusion h, rfl⟩

/-- C3 (amended): the converter fails iff the request's `max_tokens` is
absent or falsy (Python `or` skips `null`, `0`, `false`, empty values) AND
`max_completion_tokens` is absent or `null`; otherwise it succeeds and the
output's `max_tokens` is `max_tokens or max_completion_tokens` (truthy
`max_tokens` taking precedence). -/
theorem c3_max_tokens_amended (req : OpenAIRequest) (resolved_model : String) :
    ((openai_chat_completions_to_anthropic_messages req resolved_model).isOk = false
      ↔ (req.max_tokens.truthy = false ∧ req.max_completion_tokens.isNull = true))
    ∧ (∀ out, openai_chat_completions_to_anthropic_messages req resolved_model
          = Except.ok out →
        out.max_tokens = pyOr req.max_tokens req.max_completion_tokens) := by
  constructor
  · unfold openai_chat_completions_to_anthropic_messages
    by_cases h : (pyOr req.max_tokens req.max_completion_tokens).isNull = true
    · rw [if_pos (by simpa using h)]
      rw [pyOr_isNull] at h
      constructor
      · intro _
        constructor
        · rcases Bool.and_eq_true _ _ |>.mp h with ⟨h1, _⟩
          simpa using h1
        · exact (Bool.and_eq_true _ _ |>.mp h).2
      · intro _; rfl
    · rw [if_neg (by simpa using h)]
      rw [pyOr_isNull] at h
      constructor
      · intro hfalse
        exact Bool.noConfusion (show true = false from hfalse)
      · intro ⟨h1, h2⟩
        exact absurd (by rw [h1, h2]; rfl) h
  · intro out hout
    unfold openai_chat_completions_to_anthropic_messages at hout
    by_cases h : (pyOr req.max_tokens req.max_completion_tokens).isNull = true
    · rw [if_pos (by simpa using h)] at hout
      exact absurd hout (by simp)
    · rw [if_neg (by simpa using h)] at hout
      have hinj := Except.ok.inj hout
      rw [← hinj]

/-- Witness for C3 (amended) on a concrete succeeding request. -/
theorem c3_max_tokens_amended_witness :
    openai_chat_completions_to_anthropic_messages { max_tokens := Json.int 5 } "m"
      = Except.ok { model := "m", max_tokens := Json.int 5, stream := false }
    ∧ ({ model := "m", max_tokens := Json.int 5, stream := false }
        : AnthropicRequest).max_tokens = pyOr (Json.int 5) Json.null :=
  ⟨rfl, (c3_max_tokens_amended { max_tokens := Json.int 5 } "m").2 _ rfl⟩

/-- C9 counterexample: the claim says the collected system texts are
joined with a blank line; the source drops empty parts before joining, so
system texts `a`, `(empty)`, `b` give `a\n\nb`, not the plain join
`a\n\n\n\nb`. -/
theorem c9_counterexample :
    (openai_chat_completions_to_anthropic_messages reqSysW "m").map (fun out => out.system)
      = Except.ok (some "a\n\nb")
    ∧ ¬ "a\n\nb" = String.intercalate "\n\n" ["a", "", "b"] :=
  ⟨rfl, by decide⟩

/-- C9 (amended): the converter collects the system-role messages' texts
in arrival order (string content as one part, list content flattened to
its `text`-typed parts only, other part types dropped) and joins them with
a blank line after dropping empty parts; the `system` key is omitted when
no part was collected. -/
theorem c9_system_join_amended (req : OpenAIRequest) (resolved_model : String)
    (out : AnthropicRequest)
    (hout : openai_chat_completions_to_anthropic_messages req resolved_model
      = Except.ok out) :
    out.system =
      (if ((req.messages.map sysContrib).flatten).isEmpty then none
       else some (String.intercalate "\n\n"
         (((req.messages.map sysContrib).flatten).filter (fun p => p != "")))) := by
  unfold openai_chat_completions_to_anthropic_messages at hout
  by_cases h : (pyOr req.max_tokens req.max_completion_tokens).isNull = true
  · rw [if_pos (by simpa using h)] at hout
    exact absurd hout (by simp)
  · rw [if_neg (by simpa using h)] at hout
    have hinj := Except.ok.inj hout
    rw [← hinj]

/-- Witness for C9 (amended) on `reqSysW`. -/
theorem c9_system_join_amended_witness :
    openai_chat_completions_to_anthropic_messages reqSysW "m" = Except.ok outSysW
    ∧ outSysW.system =
        (if ((reqSysW.messages.map sysContrib).flatten).isEmpty then none
         else some (String.intercalate "\n\n"
           (((reqSysW.messages.map sysContrib).flatten).filter (fun p => p != "")))) :=
  ⟨rfl, c9_system_join_amended reqSysW "m" outSysW rfl⟩

/-- C10: a `user`- or `assistant`-role message with `null` (or absent)
content converts to a message with the same role and an empty content
list; the message is not dropped (the output messages are exactly the
in-order per-message contributions) and conversion never fails because of
it (failure depends only on the derived `max_tokens`). -/
theorem c10_null_content_passthrough (req : OpenAIRequest) (resolved_model : String)
    (out : AnthropicRequest) :
    (openai_chat_completions_to_anthropic_messages req resolved_model = Except.ok out →
      out.messages = (req.messages.map msgContrib).flatten)
    ∧ (∀ msg : OAIMessage,
        (msg.role = Json.str "user" ∨ msg.role = Json.str "assistant") →
        msg.content = Json.null →
        msgContrib msg = [Json.obj [("role", msg.role), ("content", Json.arr [])]])
    ∧ ((pyOr req.max_tokens req.max_completion_tokens).isNull = false →
        (openai_chat_completions_to_anthropic_messages req resolved_model).isOk = true) := by
  refine ⟨?_, ?_, ?_⟩
  · intro hout
    unfold openai_chat_completions_to_anthropic_messages at hout
    by_cases h : (pyOr req.max_tokens req.max_completion_tokens).isNull = true
    · rw [if_pos (by simpa using h)] at hout
      exact absurd hout (by simp)
    · rw [if_neg (by simpa using h)] at hout
      have hinj := Except.ok.inj hout
      rw [← hinj]
  · intro msg hrole hc
    rcases hrole with h | h <;> unfold msgContrib <;> rw [h, hc] <;> rfl
  · intro h
    unfold openai_chat_completions_to_anthropic_messages
    rw [if_neg (by simp [h])]
    rfl

/-- Witness for C10 on `reqNullW`. -/
theorem c10_null_content_passthrough_witness :
    openai_chat_completions_to_anthropic_messages reqNullW "m" = Except.ok outNullW
    ∧ outNullW.messages = (reqNullW.messages.map msgContrib).flatten
    ∧ msgContrib { role := Json.str "user" }
        = [Json.obj [("role", Json.str "user"), ("content", Json.arr [])]]
    ∧ (openai_chat_completions_to_anthropic_messages reqNullW "m").isOk = true :=
  ⟨rfl, (c10_null_content_passthrough reqNullW "m" outNullW).1 rfl,
   (c10_null_content_passthrough reqNullW "m" outNullW).2.1 _ (Or.inl rfl) rfl,
   (c10_null_content_passthrough reqNullW "m" outNullW).2.2 rfl⟩

theorem pyGet_obj {j : Json} (k : String) (h : j.isObj = true) :
    pyGet j k = .ok (j.get k) := by
  cases j <;> first | rfl | simp [Json.isObj] at h

/-- C7: a `content_block_delta` whose payload and delta are dictionaries
emits exactly one chunk with `delta.content` the delta's text and
`finish_reason` null when the delta type is `text_delta` and the text a
non-empty string, and emits nothing when the delta type is not
`text_delta` or the text is absent (`null`) or the empty string. -/
theorem c7_text_delta_chunks (parse : String → Option Json) (cfg : SseCfg)
    (d : String) (payload : Json)
    (hp : parse d = some payload) (hobj : payload.isObj = true)
    (hdobj : (pyOr (payload.get "delta") (Json.obj [])).isObj = true) :
    (∀ t : String,
      (pyOr (payload.get "delta") (Json.obj [])).get "type" = Json.str "text_delta" →
      (pyOr (payload.get "delta") (Json.obj [])).get "text" = Json.str t →
      ¬ t = "" →
      dispatchEvent parse cfg "content_block_delta" d
        = Except.ok ([sseData (mkChunk cfg (Json.obj [("content", Json.str t)]) Json.null)],
            false))
    ∧ ((¬ (pyOr (payload.get "delta") (Json.obj [])).get "type" = Json.str "text_delta"
        ∨ (pyOr (payload.get "delta") (Json.obj [])).get "text" = Json.null
        ∨ (pyOr (payload.get "delta") (Json.obj [])).get "text" = Json.str "") →
      dispatchEvent parse cfg "content_block_delta" d = Except.ok ([], false)) := by
  constructor
  · intro t hty htext hne
    unfold dispatchEvent
    rw [if_pos rfl, hp]
    dsimp only
    rw [pyGet_obj _ hobj]
    dsimp only
    rw [pyGet_obj _ hdobj]
    dsimp only
    rw [hty]
    rw [show (!(Json.str "text_delta").eqStr "text_delta") = false from rfl, if_neg (by simp)]
    rw [pyGet_obj _ hdobj]
    dsimp only
    rw [htext]
    rw [show (Json.str t).truthy = (t != "") from rfl]
    rw [if_neg (by simpa using hne)]
  · intro hskip
    unfold dispatchEvent
    rw [if_pos rfl, hp]
    dsimp only
    rw [pyGet_obj _ hobj]
    dsimp only
    rw [pyGet_obj _ hdobj]
    dsimp only
    rcases hskip with hty | htext | htext
    · have e1 : ((pyOr (payload.get "delta") (Json.obj [])).get "type").eqStr "text_delta"
          = false := by
        cases he : (pyOr (payload.get "delta") (Json.obj [])).get "type" <;>
          simp [Json.eqStr]
        intro hcontra
        exact hty (by rw [he, hcontra])
      rw [e1]
      rfl
    · by_cases hty : ((pyOr (payload.get "delta") (Json.obj [])).get "type").eqStr "text_delta"
          = true
      · rw [hty]
        rw [show (!true) = false from rfl, if_neg (by simp)]
        rw [pyGet_obj _ hdobj]
        dsimp only
        rw [htext]
        rfl
      · rw [show ((pyOr (payload.get "delta") (Json.obj [])).get "type").eqStr "text_delta"
            = false from by simpa using hty]
        rfl
    · by_cases hty : ((pyOr (payload.get "delta") (Json.obj [])).get "type").eqStr "text_delta"
          = true
      · rw [hty]
        rw [show (!true) = false from rfl, if_neg (by simp)]
        rw [pyGet_obj _ hdobj]
        dsimp only
        rw [htext]
        rfl
      · rw [show ((pyOr (payload.get "delta") (Json.obj [])).get "type").eqStr "text_delta"
            = false from by simpa using hty]
        rfl

/-- Witness for C7 at concrete payloads: non-empty text emits one chunk,
empty text emits nothing. -/
theorem c7_text_delta_chunks_witness :
    (parseTextW "p" = some payloadTextW ∧ ¬ "Hi" = "")
    ∧ dispatchEvent parseTextW cfg0 "content_block_delta" "p"
        = Except.ok ([sseData (mkChunk cfg0 (Json.obj [("content", Json.str "Hi")])
            Json.null)], false)
    ∧ dispatchEvent parseTextW cfg0 "content_block_delta" "q" = Except.ok ([], false) :=
  ⟨⟨rfl, by decide⟩,
   (c7_text_delta_chunks parseTextW cfg0 "p" payloadTextW rfl rfl rfl).1 "Hi" rfl rfl
     (by decide),
   (c7_text_delta_chunks parseTextW cfg0 "q" payloadEmptyW rfl rfl rfl).2
     (Or.inr (Or.inr rfl))⟩

theorem runLines_cons (parse : String → Option Json) (cfg : SseCfg)
    (pending : Option String) (raw : String) (rest : List String) :
    runLines parse cfg pending (raw :: rest)
      = (match processLine parse cfg pending raw with
         | .error _ => ([], true)
         | .ok (p, evs, stop) =>
           if stop then (evs, false)
           else (evs ++ (runLines parse cfg p rest).1, (runLines parse cfg p rest).2)) := by
  rfl

/-- C8 counterexample: the claim also says the translation function never
raises on any input fragment; a `content_block_delta` fragment whose data
is the valid JSON literal `null` makes the source call `.get` on `None`,
an uncaught `AttributeError` (embedded as `Except.error`). -/
theorem c8_counterexample :
    processLine parseNull cfg0 none "event: content_block_delta\ndata: null"
      = Except.error () := by
  rfl

/-- C8 (amended): an assembled event whose data payload fails to parse as
JSON is skipped — nothing is emitted, the loop does not stop, and the
translator continues with the next fragment; JSON parse failure itself
never raises (but a payload that parses to a non-dictionary can, see the
counterexample). -/
theorem c8_parse_failure_skipped_amended (parse : String → Option Json) (cfg : SseCfg) :
    (∀ (e d : String), parse d = none →
      (e = "content_block_delta" ∨ e = "message_delta") →
      dispatchEvent parse cfg e d = Except.ok ([], false))
    ∧ (∀ (pending : Option String) (raw e d : String),
        assembleLine pending raw = AssembleResult.dispatchTo e d →
        parse d = none → (e = "content_block_delta" ∨ e = "message_delta") →
        processLine parse cfg pending raw = Except.ok (none, [], false))
    ∧ (∀ (pending p : Option String) (raw : String) (evs : List String)
          (rest : List String),
        processLine parse cfg pending raw = Except.ok (p, evs, false) →
        runLines parse cfg pending (raw :: rest)
          = (evs ++ (runLines parse cfg p rest).1, (runLines parse cfg p rest).2)) := by
  have part1 : ∀ (e d : String), parse d = none →
      (e = "content_block_delta" ∨ e = "message_delta") →
      dispatchEvent parse cfg e d = Except.ok ([], false) := by
    intro e d hpd hor
    rcases hor with rfl | rfl
    · unfold dispatchEvent
      rw [if_pos rfl, hpd]
    · unfold dispatchEvent
      rw [if_neg (by decide), if_pos rfl, hpd]
  refine ⟨part1, ?_, ?_⟩
  · intro pending raw e d hasm hpd hor
    unfold processLine
    rw [hasm]
    dsimp only
    rw [part1 e d hpd hor]
    rfl
  · intro pending p raw evs rest hstep
    rw [runLines_cons, hstep]
    dsimp only
    rw [if_neg (by decide)]

/-- Witness for C8 (amended) at a concrete unparseable fragment. -/
theorem c8_parse_failure_skipped_amended_witness :
    (assembleLine none "event: content_block_delta\ndata: xyz"
        = AssembleResult.dispatchTo "content_block_delta" "xyz"
      ∧ parseNull "xyz" = none)
    ∧ processLine parseNull cfg0 none "event: content_block_delta\ndata: xyz"
        = Except.ok (none, [], false) :=
  ⟨⟨rfl, rfl⟩,
   (c8_parse_failure_skipped_amended parseNull cfg0).2.1 none
     "event: content_block_delta\ndata: xyz" "content_block_delta" "xyz" rfl rfl
     (Or.inl rfl)⟩

/-- C6 counterexample: the claim says the termination sentinel is the
last emitted line for every input line sequence; on a fragment whose
payload parses to the JSON literal `null` the translation raises
(`AttributeError` in the source) and nothing — in particular no sentinel —
is emitted. -/
theorem c6_counterexample :
    ¬ ((anthropic_sse_to_openai_chat_completions_sse parseNull cfg0
        ["event: content_block_delta\ndata: null"]).1.getLast?
      = some "data: [DONE]\n\n") := by
  have h : (anthropic_sse_to_openai_chat_completions_sse parseNull cfg0
      ["event: content_block_delta\ndata: null"]).1 = [] := rfl
  rw [h]
  simp

/-- C6 (amended): whenever translation completes without an uncaught
exception, the last emitted line is the `data: [DONE]` sentinel — whether
the source ended by `message_stop`, an upstream `[DONE]`, or natural
exhaustion; a line whose processing stops the loop (as a `message_stop`
event does) makes all further input lines unconsumed and emit nothing. -/
theorem c6_done_sentinel_amended (parse : String → Option Json) (cfg : SseCfg) :
    (∀ lines : List String,
      (anthropic_sse_to_openai_chat_completions_sse parse cfg lines).2 = false →
      (anthropic_sse_to_openai_chat_completions_sse parse cfg lines).1.getLast?
        = some "data: [DONE]\n\n")
    ∧ (∀ (pending p : Option String) (raw : String) (evs : List String)
          (rest : List String),
        processLine parse cfg pending raw = Except.ok (p, evs, true) →
        runLines parse cfg pending (raw :: rest) = (evs, false))
    ∧ (∀ d : String, dispatchEvent parse cfg "message_stop" d = Except.ok ([], true)) := by
  refine ⟨?_, ?_, ?_⟩
  · intro lines h
    unfold anthropic_sse_to_openai_chat_completions_sse at h ⊢
    dsimp only at h ⊢
    by_cases hr : (runLines parse cfg none lines).2 = true
    · rw [if_pos hr] at h
      exact absurd hr (by simp [h])
    · rw [if_neg hr] at h ⊢
      simp
  · intro pending p raw evs rest hstep
    rw [runLines_cons, hstep]
    dsimp only
    rw [if_pos rfl]
  · intro d
    unfold dispatchEvent
    rw [if_neg (by decide), if_neg (by decide), if_pos rfl]

/-- Witness for C6 (amended) on a concrete `message_stop` stream. -/
theorem c6_done_sentinel_amended_witness :
    (anthropic_sse_to_openai_chat_completions_sse parseNull cfg0
        ["event: message_stop\ndata: x"]).2 = false
    ∧ (anthropic_sse_to_openai_chat_completions_sse parseNull cfg0
        ["event: message_stop\ndata: x"]).1.getLast? = some "data: [DONE]\n\n" :=
  ⟨rfl, (c6_done_sentinel_amended parseNull cfg0).1 _ rfl⟩

theorem lookup_replaceKey_ne {m : List (Int × ToolCallIndexState)} {i j : Int}
    (tc : ToolCallIndexState) (hne : ¬ j = i) :
    (replaceKey m i tc).lookup j = m.lookup j := by
  induction m with
  | nil => rfl
  | cons kv rest ih =>
    obtain ⟨k, v⟩ := kv
    rw [replaceKey_cons]
    by_cases hk : k = i
    · subst hk
      rw [if_pos rfl, lookup_cons_ne hne, lookup_cons_ne hne]
      exact ih
    · rw [if_neg hk]
      by_cases hjk : j = k
      · subst hjk
        rw [lookup_cons_self, lookup_cons_self]
      · rw [lookup_cons_ne hjk, lookup_cons_ne hjk]
        exact ih

theorem lookup_append_single_ne {m : List (Int × ToolCallIndexState)} {i j : Int}
    (tc : ToolCallIndexState) (hne : ¬ j = i) :
    (m ++ [(i, tc)]).lookup j = m.lookup j := by
  induction m with
  | nil =>
    show ([(i, tc)] : List (Int × ToolCallIndexState)).lookup j = none
    rw [lookup_cons_ne hne]
    rfl
  | cons kv rest ih =>
    obtain ⟨k, v⟩ := kv
    by_cases hjk : j = k
    · subst hjk
      rw [List.cons_append, lookup_cons_self, lookup_cons_self]
    · rw [List.cons_append, lookup_cons_ne hjk, lookup_cons_ne hjk]
      exact ih

theorem lookup_setTool_ne {m : List (Int × ToolCallIndexState)} {i j : Int}
    (tc : ToolCallIndexState) (hne : ¬ j = i) :
    (setTool m i tc).lookup j = m.lookup j := by
  cases hs : m.lookup i with
  | some t =>
    rw [setTool_of_isSome tc (by simp [hs])]
    exact lookup_replaceKey_ne tc hne
  | none =>
    rw [setTool_of_none tc hs]
    exact lookup_append_single_ne tc hne

theorem noJsonDeltaAt_append {n : Nat} {a b : List ClaudeEvent}
    (ha : NoJsonDeltaAt n a) (hb : NoJsonDeltaAt n b) : NoJsonDeltaAt n (a ++ b) := by
  intro args hmem
  rcases List.mem_append.mp hmem with h | h
  · exact ha args h
  · exact hb args h

theorem noJsonDeltaAt_of_noJson {n : Nat} {evs : List ClaudeEvent}
    (h : ∀ e ∈ evs, e.isJsonDelta = false) : NoJsonDeltaAt n evs := by
  intro args hmem
  have := h _ hmem
  simp [ClaudeEvent.isJsonDelta] at this

theorem stepEntry_sent_started {parse : String → Option Json} {outIdx : Nat}
    {tc0 : ToolCallIndexState} {f : ToolCallDelta}
    (hj : tc0.json_sent = true) (hs : tc0.started = true) :
    stepEntry parse outIdx tc0 f = (mergeFragment tc0 f, [], false) := by
  unfold stepEntry
  have hstart : startStep outIdx (mergeFragment tc0 f)
      = (mergeFragment tc0 f, [], false) := by
    unfold startStep
    rw [if_neg (by simp [mergeFragment_started, hs])]
  rw [hstart]
  dsimp only
  rw [jsonStep_of_json_sent (by rw [mergeFragment_json_sent]; exact hj)]
  rfl

theorem textStep_text_index (st : OpenAIToClaudeStreamState) (content : Option String) :
    (textStep st content).1.text_block_index = st.text_block_index := by
  unfold textStep
  cases content with
  | none => rfl
  | some t =>
    by_cases h : t = ""
    · simp [h]
    · by_cases hb : st.text_block_started <;> simp [h, hb]

theorem finishStep_text_index (st : OpenAIToClaudeStreamState) (fr : Option String) :
    (finishStep st fr).text_block_index = st.text_block_index := by
  unfold finishStep
  cases fr with
  | none => rfl
  | some fr => rfl

theorem fullInv_congr {s t : OpenAIToClaudeStreamState}
    (h1 : t.tool_block_counter = s.tool_block_counter)
    (h2 : t.current_tool_calls = s.current_tool_calls)
    (h3 : t.text_block_index = s.text_block_index)
    (h : FullInv s) : FullInv t := by
  unfold FullInv OutBound OutInj at *
  rw [h1, h2, h3]
  exact ⟨stateInv_congr h1 h2 h.1, h.2⟩

theorem stepEntry_shape (parse : String → Option Json) (outIdx : Nat)
    (tc0 : ToolCallIndexState) (f : ToolCallDelta) :
    ((stepEntry parse outIdx tc0 f).2.2 = true
      ∧ tc0.started = false
      ∧ (stepEntry parse outIdx tc0 f).1.started = true
      ∧ (stepEntry parse outIdx tc0 f).1.output_index = some outIdx
      ∧ ∀ e ∈ (stepEntry parse outIdx tc0 f).2.1, ∀ (idx : Nat) (args : Json),
          e = ClaudeEvent.input_json_delta idx args → idx = outIdx)
    ∨ ((stepEntry parse outIdx tc0 f).2.2 = false
      ∧ (stepEntry parse outIdx tc0 f).1.started = tc0.started
      ∧ (stepEntry parse outIdx tc0 f).1.output_index = tc0.output_index
      ∧ ∀ e ∈ (stepEntry parse outIdx tc0 f).2.1, ∀ (idx : Nat) (args : Json),
          e = ClaudeEvent.input_json_delta idx args →
            tc0.started = true ∧ idx = tc0.output_index.getD 0) := by
  unfold stepEntry
  rcases startStep_spec outIdx (mergeFragment tc0 f) with ⟨hc, hEq⟩ | ⟨hc, hEq⟩ <;>
    rw [hEq] <;> dsimp only
  · have hst : tc0.started = false := by
      have h1 := ((Bool.and_eq_true _ _).mp ((Bool.and_eq_true _ _).mp hc).1).1
      rw [← mergeFragment_started tc0 f]
      simpa using h1
    left
    rcases jsonStep_spec parse
        { mergeFragment tc0 f with started := true, output_index := some outIdx } with
      ⟨args, hs2, hj2, hp2, hEq2⟩ | hEq2 <;> rw [hEq2] <;> dsimp only
    · refine ⟨rfl, hst, rfl, rfl, ?_⟩
      intro e he idx args2 hdelta
      subst hdelta
      simp at he
      exact he.1
    · refine ⟨rfl, hst, rfl, rfl, ?_⟩
      intro e he idx args2 hdelta
      subst hdelta
      simp at he
  · right
    rcases jsonStep_spec parse (mergeFragment tc0 f) with
      ⟨args, hs2, hj2, hp2, hEq2⟩ | hEq2 <;> rw [hEq2] <;> dsimp only
    · refine ⟨rfl, mergeFragment_started tc0 f, mergeFragment_output_index tc0 f, ?_⟩
      intro e he idx args2 hdelta
      subst hdelta
      simp at he
      constructor
      · rw [← mergeFragment_started tc0 f]
        exact hs2
      · rw [he.1, mergeFragment_output_index]
    · refine ⟨rfl, mergeFragment_started tc0 f, mergeFragment_output_index tc0 f, ?_⟩
      intro e he idx args2 hdelta
      simp at he

theorem outBound_processToolFragment (parse : String → Option Json)
    (st : OpenAIToClaudeStreamState) (f : ToolCallDelta)
    (hOB : OutBound st) :
    OutBound (processToolFragment parse st f).1 := by
  obtain ⟨hmap, hcounter⟩ := processToolFragment_counter parse st f
  have htbi : (processToolFragment parse st f).1.text_block_index
      = st.text_block_index := rfl
  intro kv hkv hst n hout
  cases hl : st.current_tool_calls.lookup f.index with
  | some tcOld =>
    rw [hl] at hmap hcounter
    dsimp only at hmap hcounter
    rw [hmap] at hkv
    rw [htbi, hcounter]
    rcases mem_setTool hkv with rfl | hm
    · rcases stepEntry_shape parse (st.text_block_index + 1 + st.tool_block_counter)
          tcOld f with ⟨hb, hold, hstarted, houtidx, _⟩ | ⟨hb, hstarted, houtidx, _⟩
      · have hn : n = st.text_block_index + 1 + st.tool_block_counter := by
          have h2 : (stepEntry parse (st.text_block_index + 1 + st.tool_block_counter)
              tcOld f).1.output_index = some n := hout
          rw [houtidx] at h2
          exact (Option.some.inj h2).symm
        rw [if_pos hb]
        omega
      · have hts : tcOld.started = true := by
          have h2 : (stepEntry parse (st.text_block_index + 1 + st.tool_block_counter)
              tcOld f).1.started = true := hst
          rw [hstarted] at h2
          exact h2
        have hto : tcOld.output_index = some n := by
          have h2 : (stepEntry parse (st.text_block_index + 1 + st.tool_block_counter)
              tcOld f).1.output_index = some n := hout
          rw [houtidx] at h2
          exact h2
        have hlt := hOB (f.index, tcOld) (lookup_mem hl) hts n hto
        rw [if_neg (by simp [hb])]
        omega
    · have hlt := hOB kv hm hst n hout
      rcases stepEntry_shape parse (st.text_block_index + 1 + st.tool_block_counter)
          tcOld f with ⟨hb, _⟩ | ⟨hb, _⟩
      · rw [if_pos hb]; omega
      · rw [if_neg (by simp [hb])]; omega
  | none =>
    rw [hl] at hmap hcounter
    dsimp only at hmap hcounter
    rw [hmap] at hkv
    rw [htbi, hcounter]
    rcases mem_setTool hkv with rfl | hm
    · rcases stepEntry_shape parse (st.text_block_index + 1 + st.tool_block_counter)
          ({} : ToolCallIndexState) f with
        ⟨hb, hold, hstarted, houtidx, _⟩ | ⟨hb, hstarted, houtidx, _⟩
      · have hn : n = st.text_block_index + 1 + st.tool_block_counter := by
          have h2 : (stepEntry parse (st.text_block_index + 1 + st.tool_block_counter)
              ({} : ToolCallIndexState) f).1.output_index = some n := hout
          rw [houtidx] at h2
          exact (Option.some.inj h2).symm
        rw [if_pos hb]
        omega
      · exfalso
        have h2 : (stepEntry parse (st.text_block_index + 1 + st.tool_block_counter)
            ({} : ToolCallIndexState) f).1.started = true := hst
        rw [hstarted] at h2
        exact Bool.noConfusion h2
    · have hlt := hOB kv hm hst n hout
      rcases stepEntry_shape parse (st.text_block_index + 1 + st.tool_block_counter)
          ({} : ToolCallIndexState) f with ⟨hb, _⟩ | ⟨hb, _⟩
      · rw [if_pos hb]; omega
      · rw [if_neg (by simp [hb])]; omega

theorem outInj_processToolFragment (parse : String → Option Json)
    (st : OpenAIToClaudeStreamState) (f : ToolCallDelta)
    (hSI : StateInv st) (hOB : OutBound st) (hOI : OutInj st.current_tool_calls) :
    OutInj (processToolFragment parse st f).1.current_tool_calls := by
  obtain ⟨hmap, _⟩ := processToolFragment_counter parse st f
  intro p hp q hq hps hqs hpq
  cases hl : st.current_tool_calls.lookup f.index with
  | some tcOld =>
    rw [hl] at hmap
    dsimp only at hmap
    rw [hmap] at hp hq
    rcases mem_setTool hp with rfl | hpM <;> rcases mem_setTool hq with rfl | hqM
    · rfl
    · rcases stepEntry_shape parse (st.text_block_index + 1 + st.tool_block_counter)
          tcOld f with ⟨hb, hold, hstarted, houtidx, _⟩ | ⟨hb, hstarted, houtidx, _⟩
      · exfalso
        obtain ⟨nq, hnq⟩ := Option.isSome_iff_exists.mp ((hSI.2 q hqM).2.mp hqs)
        have hlt := hOB q hqM hqs nq hnq
        have hpq2 : (stepEntry parse (st.text_block_index + 1 + st.tool_block_counter)
            tcOld f).1.output_index = q.2.output_index := hpq
        rw [houtidx, hnq] at hpq2
        have := Option.some.inj hpq2
        omega
      · have hps2 : (stepEntry parse (st.text_block_index + 1 + st.tool_block_counter)
            tcOld f).1.started = true := hps
        rw [hstarted] at hps2
        have hpq2 : (stepEntry parse (st.text_block_index + 1 + st.tool_block_counter)
            tcOld f).1.output_index = q.2.output_index := hpq
        rw [houtidx] at hpq2
        exact hOI (f.index, tcOld) (lookup_mem hl) q hqM hps2 hqs hpq2
    · rcases stepEntry_shape parse (st.text_block_index + 1 + st.tool_block_counter)
          tcOld f with ⟨hb, hold, hstarted, houtidx, _⟩ | ⟨hb, hstarted, houtidx, _⟩
      · exfalso
        obtain ⟨np, hnp⟩ := Option.isSome_iff_exists.mp ((hSI.2 p hpM).2.mp hps)
        have hlt := hOB p hpM hps np hnp
        have hpq2 : p.2.output_index = (stepEntry parse
            (st.text_block_index + 1 + st.tool_block_counter) tcOld f).1.output_index := hpq
        rw [houtidx, hnp] at hpq2
        have := Option.some.inj hpq2
        omega
      · have hqs2 : (stepEntry parse (st.text_block_index + 1 + st.tool_block_counter)
            tcOld f).1.started = true := hqs
        rw [hstarted] at hqs2
        have hpq2 : p.2.output_index = (stepEntry parse
            (st.text_block_index + 1 + st.tool_block_counter) tcOld f).1.output_index := hpq
        rw [houtidx] at hpq2
        exact hOI p hpM (f.index, tcOld) (lookup_mem hl) hps hqs2 hpq2
    · exact hOI p hpM q hqM hps hqs hpq
  | none =>
    rw [hl] at hmap
    dsimp only at hmap
    rw [hmap] at hp hq
    rcases mem_setTool hp with rfl | hpM <;> rcases mem_setTool hq with rfl | hqM
    · rfl
    · rcases stepEntry_shape parse (st.text_block_index + 1 + st.tool_block_counter)
          ({} : ToolCallIndexState) f with
        ⟨hb, hold, hstarted, houtidx, _⟩ | ⟨hb, hstarted, houtidx, _⟩
      · exfalso
        obtain ⟨nq, hnq⟩ := Option.isSome_iff_exists.mp ((hSI.2 q hqM).2.mp hqs)
        have hlt := hOB q hqM hqs nq hnq
        have hpq2 : (stepEntry parse (st.text_block_index + 1 + st.tool_block_counter)
            ({} : ToolCallIndexState) f).1.output_index = q.2.output_index := hpq
        rw [houtidx, hnq] at hpq2
        have := Option.some.inj hpq2
        omega
      · exfalso
        have hps2 : (stepEntry parse (st.text_block_index + 1 + st.tool_block_counter)
            ({} : ToolCallIndexState) f).1.started = true := hps
        rw [hstarted] at hps2
        exact Bool.noConfusion hps2
    · rcases stepEntry_shape parse (st.text_block_index + 1 + st.tool_block_counter)
          ({} : ToolCallIndexState) f with
        ⟨hb, hold, hstarted, houtidx, _⟩ | ⟨hb, hstarted, houtidx, _⟩
      · exfalso
        obtain ⟨np, hnp⟩ := Option.isSome_iff_exists.mp ((hSI.2 p hpM).2.mp hps)
        have hlt := hOB p hpM hps np hnp
        have hpq2 : p.2.output_index = (stepEntry parse
            (st.text_block_index + 1 + st.tool_block_counter)
            ({} : ToolCallIndexState) f).1.output_index := hpq
        rw [houtidx, hnp] at hpq2
        have := Option.some.inj hpq2
        omega
      · exfalso
        have hqs2 : (stepEntry parse (st.text_block_index + 1 + st.tool_block_counter)
            ({} : ToolCallIndexState) f).1.started = true := hqs
        rw [hstarted] at hqs2
        exact Bool.noConfusion hqs2
    · exact hOI p hpM q hqM hps hqs hpq

theorem fullInv_processToolFragment (parse : String → Option Json)
    (st : OpenAIToClaudeStreamState) (f : ToolCallDelta) (h : FullInv st) :
    FullInv (processToolFragment parse st f).1 := by
  obtain ⟨hSI, hND, hOB, hOI⟩ := h
  have hstrong := strongInv_processToolFragment parse st f hSI hND
  exact ⟨hstrong.1, hstrong.2, outBound_processToolFragment parse st f hOB,
    outInj_processToolFragment parse st f hSI hOB hOI⟩

theorem fullInv_processToolFragments (parse : String → Option Json)
    (fs : List ToolCallDelta) :
    ∀ st : OpenAIToClaudeStreamState, FullInv st →
      FullInv (processToolFragments parse st fs).1 := by
  induction fs with
  | nil => intro st h; exact h
  | cons f fs ih =>
    intro st h
    have h1 := fullInv_processToolFragment parse st f h
    have h2 := ih (processToolFragment parse st f).1 h1
    simpa [processToolFragments] using h2

theorem fullInv_ingest (parse : String → Option Json)
    (st : OpenAIToClaudeStreamState) (chunk : OpenAIChunk) (h : FullInv st) :
    FullInv (ingest_openai_chunk parse st chunk).1 := by
  have ht := textStep_fields st chunk.content
  have h1 : FullInv (textStep st chunk.content).1 :=
    fullInv_congr ht.1 ht.2 (textStep_text_index st chunk.content) h
  have h2 := fullInv_processToolFragments parse chunk.tool_calls _ h1
  have hf := finishStep_fields (processToolFragments parse (textStep st chunk.content).1
    chunk.tool_calls).1 chunk.finish_reason
  have hmain : (ingest_openai_chunk parse st chunk).1
      = finishStep (processToolFragments parse (textStep st chunk.content).1
          chunk.tool_calls).1 chunk.finish_reason := rfl
  rw [hmain]
  exact fullInv_congr hf.1 hf.2 (finishStep_text_index _ _) h2

theorem fullInv_fresh (message_id : String) : FullInv (freshState message_id) := by
  refine ⟨stateInv_fresh message_id, nodupKeys_fresh message_id, ?_, ?_⟩
  · intro kv hkv
    simp [freshState] at hkv
  · intro p hp
    simp [freshState] at hp

theorem fullInv_reachable {parse : String → Option Json}
    {st : OpenAIToClaudeStreamState} (h : ReachableState parse st) : FullInv st := by
  induction h with
  | init mid => exact fullInv_fresh mid
  | step chunk _ ih => exact fullInv_ingest _ _ chunk ih

theorem fragStep_no_delta_at {parse : String → Option Json}
    {st : OpenAIToClaudeStreamState} {i : Int} {tcc : ToolCallIndexState} {n0 : Nat}
    (f : ToolCallDelta) (hF : FullInv st)
    (hl : st.current_tool_calls.lookup i = some tcc)
    (hj : tcc.json_sent = true) (hs : tcc.started = true)
    (ho : tcc.output_index = some n0) :
    FullInv (processToolFragment parse st f).1
    ∧ (∃ tc', (processToolFragment parse st f).1.current_tool_calls.lookup i = some tc'
        ∧ tc'.json_sent = true ∧ tc'.started = true ∧ tc'.output_index = some n0
        ∧ tc'.args_buffer = tcc.args_buffer
            ++ (if f.index = i then fragArgString f else ""))
    ∧ NoJsonDeltaAt n0 (processToolFragment parse st f).2 := by
  obtain ⟨hmap, _⟩ := processToolFragment_counter parse st f
  have hev : (processToolFragment parse st f).2
      = (stepEntry parse (st.text_block_index + 1 + st.tool_block_counter)
          (match st.current_tool_calls.lookup f.index with
           | some tc => tc
           | none => {}) f).2.1 := rfl
  refine ⟨fullInv_processToolFragment parse st f hF, ?_, ?_⟩
  · by_cases hidx : f.index = i
    · subst hidx
      rw [hl] at hmap
      dsimp only at hmap
      rw [@stepEntry_sent_started parse
        (st.text_block_index + 1 + st.tool_block_counter) tcc f hj hs] at hmap
      dsimp only at hmap
      refine ⟨mergeFragment tcc f, ?_, ?_, ?_, ?_, ?_⟩
      · rw [hmap]
        exact lookup_setTool_self _
      · rw [mergeFragment_json_sent]
        exact hj
      · rw [mergeFragment_started]
        exact hs
      · rw [mergeFragment_output_index]
        exact ho
      · rw [mergeFragment_args, if_pos rfl]
    · refine ⟨tcc, ?_, hj, hs, ho, ?_⟩
      · rw [hmap, lookup_setTool_ne _ (fun he => hidx he.symm)]
        exact hl
      · rw [if_neg hidx]
        simp
  · by_cases hidx : f.index = i
    · subst hidx
      rw [hl] at hev
      dsimp only at hev
      rw [@stepEntry_sent_started parse
        (st.text_block_index + 1 + st.tool_block_counter) tcc f hj hs] at hev
      rw [hev]
      intro args hmem
      simp at hmem
    · intro args hmem
      rw [hev] at hmem
      cases hl2 : st.current_tool_calls.lookup f.index with
      | some tOld =>
        rw [hl2] at hmem
        dsimp only at hmem
        rcases stepEntry_shape parse (st.text_block_index + 1 + st.tool_block_counter)
            tOld f with ⟨hb, hold, hstarted, houtidx, hprop⟩ | ⟨hb, hstarted, houtidx, hprop⟩
        · have hn0 := hprop _ hmem n0 args rfl
          have hlt := hF.2.2.1 (i, tcc) (lookup_mem hl) hs n0 ho
          omega
        · obtain ⟨hts, hgd⟩ := hprop _ hmem n0 args rfl
          obtain ⟨nj, hnj⟩ := Option.isSome_iff_exists.mp ((hF.1.2 (f.index, tOld)
            (lookup_mem hl2)).2.mp hts)
          have hgd2 : tOld.output_index.getD 0 = nj := by rw [hnj]; rfl
          have hout2 : tcc.output_index = tOld.output_index := by
            rw [ho, hnj, ← hgd2, ← hgd]
          have := hF.2.2.2 (i, tcc) (lookup_mem hl) (f.index, tOld) (lookup_mem hl2)
            hs hts hout2
          exact hidx (this.symm)
      | none =>
        rw [hl2] at hmem
        dsimp only at hmem
        rcases stepEntry_shape parse (st.text_block_index + 1 + st.tool_block_counter)
            ({} : ToolCallIndexState) f with
          ⟨hb, hold, hstarted, houtidx, hprop⟩ | ⟨hb, hstarted, houtidx, hprop⟩
        · have hn0 := hprop _ hmem n0 args rfl
          have hlt := hF.2.2.1 (i, tcc) (lookup_mem hl) hs n0 ho
          omega
        · obtain ⟨hts, _⟩ := hprop _ hmem n0 args rfl
          exact Bool.noConfusion hts

theorem fragsFold_no_delta_at {parse : String → Option Json} (fs : List ToolCallDelta) :
    ∀ (st : OpenAIToClaudeStreamState) (i : Int) (tcc : ToolCallIndexState) (n0 : Nat),
      FullInv st → st.current_tool_calls.lookup i = some tcc →
      tcc.json_sent = true → tcc.started = true → tcc.output_index = some n0 →
      FullInv (processToolFragments parse st fs).1
      ∧ (∃ tc', (processToolFragments parse st fs).1.current_tool_calls.lookup i
            = some tc'
          ∧ tc'.json_sent = true ∧ tc'.started = true ∧ tc'.output_index = some n0
          ∧ tc'.args_buffer = tcc.args_buffer
              ++ concatAll ((fs.filter (fun g => g.index = i)).map fragArgString))
      ∧ NoJsonDeltaAt n0 (processToolFragments parse st fs).2 := by
  induction fs with
  | nil =>
    intro st i tcc n0 hF hl hj hs ho
    refine ⟨hF, ⟨tcc, hl, hj, hs, ho, by simp [concatAll]⟩, ?_⟩
    intro args hmem
    simp [processToolFragments] at hmem
  | cons f fs ih =>
    intro st i tcc n0 hF hl hj hs ho
    obtain ⟨hF1, ⟨tc1, hl1, hj1, hs1, ho1, hargs1⟩, hnd1⟩ :=
      @fragStep_no_delta_at parse st i tcc n0 f hF hl hj hs ho
    obtain ⟨hF2, ⟨tc2, hl2, hj2, hs2, ho2, hargs2⟩, hnd2⟩ :=
      ih (processToolFragment parse st f).1 i tc1 n0 hF1 hl1 hj1 hs1 ho1
    refine ⟨hF2, ⟨tc2, hl2, hj2, hs2, ho2, ?_⟩, ?_⟩
    · rw [hargs2, hargs1]
      by_cases hidx : f.index = i
      · rw [if_pos hidx, List.filter_cons_of_pos (by simp [hidx]), List.map_cons]
        rw [show concatAll (fragArgString f
            :: (fs.filter (fun g => g.index = i)).map fragArgString)
          = fragArgString f
            ++ concatAll ((fs.filter (fun g => g.index = i)).map fragArgString) from rfl]
        rw [String.append_assoc]
      · rw [if_neg hidx, List.filter_cons_of_neg (by simp [hidx])]
        simp
    · have hsplit : (processToolFragments parse st (f :: fs)).2
          = (processToolFragment parse st f).2
            ++ (processToolFragments parse (processToolFragment parse st f).1 fs).2 := rfl
      rw [hsplit]
      exact noJsonDeltaAt_append hnd1 hnd2

/-- C2: once `json_sent` is true for a tool index tracked by a reachable
`StreamState`, ingesting any further chunk — its fragments may target any
mix of upstream indices — never emits another `input_json_delta` event
carrying that tool's block index, while the entry stays `json_sent` and
its `args_buffer` keeps accumulating exactly its own fragments'
(stringified) arguments. -/
theorem c2_json_delta_idempotent (parse : String → Option Json)
    (st : OpenAIToClaudeStreamState) (chunk : OpenAIChunk) (i : Int)
    (tcc : ToolCallIndexState)
    (hreach : ReachableState parse st)
    (hl : st.current_tool_calls.lookup i = some tcc)
    (hj : tcc.json_sent = true) :
    (∀ args : Json,
      ClaudeEvent.input_json_delta (tcc.output_index.getD 0) args
        ∉ (ingest_openai_chunk parse st chunk).2)
    ∧ ∃ tc', (ingest_openai_chunk parse st chunk).1.current_tool_calls.lookup i = some tc'
        ∧ tc'.json_sent = true
        ∧ tc'.args_buffer = tcc.args_buffer
            ++ concatAll ((chunk.tool_calls.filter
                  (fun g => g.index = i)).map fragArgString) := by
  have hF := fullInv_reachable hreach
  have hmem : (i, tcc) ∈ st.current_tool_calls := lookup_mem hl
  have hEI := hF.1.2 (i, tcc) hmem
  have hs : tcc.started = true := hEI.1 hj
  obtain ⟨n0, ho⟩ := Option.isSome_iff_exists.mp (hEI.2.mp hs)
  have hgd : tcc.output_index.getD 0 = n0 := by rw [ho]; rfl
  have ht := textStep_fields st chunk.content
  have hF1 : FullInv (textStep st chunk.content).1 :=
    fullInv_congr ht.1 ht.2 (textStep_text_index st chunk.content) hF
  have hl1 : (textStep st chunk.content).1.current_tool_calls.lookup i = some tcc := by
    rw [ht.2]
    exact hl
  obtain ⟨hF2, ⟨tc2, hl2, hj2, hs2, ho2, hargs2⟩, hnd2⟩ :=
    @fragsFold_no_delta_at parse chunk.tool_calls (textStep st chunk.content).1 i tcc n0
      hF1 hl1 hj hs ho
  constructor
  · intro args hmemEv
    rw [hgd] at hmemEv
    have hsplit : (ingest_openai_chunk parse st chunk).2
        = (textStep st chunk.content).2
          ++ (processToolFragments parse (textStep st chunk.content).1
                chunk.tool_calls).2 := rfl
    rw [hsplit] at hmemEv
    rcases List.mem_append.mp hmemEv with h1 | h2
    · exact noJsonDeltaAt_of_noJson (textStep_noJson st chunk.content) args h1
    · exact hnd2 args h2
  · refine ⟨tc2, ?_, hj2, hargs2⟩
    have hfin : (ingest_openai_chunk parse st chunk).1.current_tool_calls
        = (processToolFragments parse (textStep st chunk.content).1
            chunk.tool_calls).1.current_tool_calls :=
      (finishStep_fields _ _).2
    rw [hfin]
    exact hl2

/-- Witness for C2: a reachable state with `json_sent` at index 0 (block
index 1), fed a mixed chunk that both appends arguments for index 0 and
starts a second tool at index 1. -/
theorem c2_json_delta_idempotent_witness :
    (stReachW.current_tool_calls.lookup 0 = some tcReachW
      ∧ tcReachW.json_sent = true)
    ∧ ((∀ args : Json,
          ClaudeEvent.input_json_delta (tcReachW.output_index.getD 0) args
            ∉ (ingest_openai_chunk parseObjW stReachW chunkMixedW).2)
      ∧ ∃ tc', (ingest_openai_chunk parseObjW stReachW
            chunkMixedW).1.current_tool_calls.lookup 0 = some tc'
          ∧ tc'.json_sent = true
          ∧ tc'.args_buffer = tcReachW.args_buffer
              ++ concatAll ((chunkMixedW.tool_calls.filter
                    (fun g => g.index = 0)).map fragArgString)) :=
  ⟨⟨rfl, rfl⟩,
   c2_json_delta_idempotent parseObjW stReachW chunkMixedW 0 tcReachW
     (ReachableState.step chunkStartW (ReachableState.init "msg_test")) rfl rfl⟩
